import Mathlib

/-!
Verification of the NativeAOT reverse-engineering tool (hytale-reversing).

This development shallowly embeds the Rust sources into Lean:
byte slices become lists of naturals, machine integers become naturals
(or integers for signed decoding) with explicit wrap-around where the
source can wrap, and every fallible operation returns an Except value.
The pelite PE parser is an external dependency of the program and is
modelled through its narrow interface (section headers, address
translation, image bytes); everything else is translated directly from
the repository code.
-/

namespace Hytale

/-- Error kind of the native-format layer (error.rs, enum AotError). -/
inductive AotErr where
  | badImage
  | invalidMetaHandle
deriving DecidableEq, Repr

instance {ε α : Type} [DecidableEq ε] [DecidableEq α] : DecidableEq (Except ε α) := fun x y =>
  match x, y with
  | .ok a, .ok b =>
    if h : a = b then .isTrue (by rw [h]) else .isFalse (by intro hh; cases hh; exact h rfl)
  | .error a, .error b =>
    if h : a = b then .isTrue (by rw [h]) else .isFalse (by intro hh; cases hh; exact h rfl)
  | .ok _, .error _ => .isFalse (by intro hh; cases hh)
  | .error _, .ok _ => .isFalse (by intro hh; cases hh)

/-- Model of a borrowed byte slice: a list of byte values. -/
abbrev Bytes := List Nat

/-- Little-endian value of a byte list (first byte is least significant). -/
def leVal : Bytes → Nat
  | [] => 0
  | b :: bs => b + 256 * leVal bs

/-- Model of the read_uN primitives of NativeReader (reader.rs,
impl_read_primitives): read n bytes little-endian at offset, failing with
BadImage when fewer than n bytes remain. -/
def readLE (data : Bytes) (offset n : Nat) : Except AotErr Nat :=
  if offset + n ≤ data.length then .ok (leVal ((data.drop offset).take n))
  else .error .badImage

/-- NativeReader::read_u8. -/
def readU8 (data : Bytes) (offset : Nat) : Except AotErr Nat := readLE data offset 1

/-- NativeReader::read_u16. -/
def readU16 (data : Bytes) (offset : Nat) : Except AotErr Nat := readLE data offset 2

/-- NativeReader::read_u32. -/
def readU32 (data : Bytes) (offset : Nat) : Except AotErr Nat := readLE data offset 4

/-- NativeReader::decode_unsigned (reader.rs lines 54-101).  The offset is
passed in and the advanced offset is returned alongside the value, mirroring
the mutable offset reference of the source.  Note that the last encoding
form (marker low nibble 1111, bit 4 clear) advances the offset by one byte
only, exactly as the source does. -/
def decodeUnsigned (data : Bytes) (offset : Nat) : Except AotErr (Nat × Nat) :=
  if data.length ≤ offset then .error .badImage
  else
    match data.get? offset with
    | none => .error .badImage
    | some val =>
      if val &&& 1 = 0 then .ok (val >>> 1, offset + 1)
      else if val &&& 2 = 0 then
        if offset + 1 > data.length then .error .badImage
        else
          match data.get? (offset + 1) with
          | none => .error .badImage
          | some b1 => .ok ((val >>> 2) ||| (b1 <<< 6), offset + 2)
      else if val &&& 4 = 0 then
        if data.length ≤ offset + 2 then .error .badImage
        else
          match data.get? (offset + 1), data.get? (offset + 2) with
          | some b1, some b2 =>
              .ok ((val >>> 3) ||| (b1 <<< 5) ||| (b2 <<< 13), offset + 3)
          | _, _ => .error .badImage
      else if val &&& 8 = 0 then
        if data.length ≤ offset + 3 then .error .badImage
        else
          match data.get? (offset + 1), data.get? (offset + 2), data.get? (offset + 3) with
          | some b1, some b2, some b3 =>
              .ok ((val >>> 4) ||| (b1 <<< 4) ||| (b2 <<< 12) ||| (b3 <<< 20), offset + 4)
          | _, _, _ => .error .badImage
      else if val &&& 16 = 0 then
        match readU32 data (offset + 1) with
        | .ok v => .ok (v, offset + 1)
        | .error e => .error e
      else .error .badImage

/-- Interpretation of a byte as a signed 8-bit value (Rust: as i8). -/
def toI8 (b : Nat) : Int :=
  if b % 256 < 128 then ((b % 256 : Nat) : Int) else ((b % 256 : Nat) : Int) - 256

/-- Interpretation of a 32-bit value as signed (Rust: u32 as i32). -/
def toI32 (v : Nat) : Int :=
  if v % 2 ^ 32 < 2 ^ 31 then ((v % 2 ^ 32 : Nat) : Int)
  else ((v % 2 ^ 32 : Nat) : Int) - 2 ^ 32

/-- NativeReader::decode_signed (reader.rs lines 103-176).  The one-byte
form sign-extends via an arithmetic shift of the byte as i8 (floor division
by two); the wider short forms zero-extend each following byte exactly as
the source (the following bytes are u8 cast to i32, hence non-negative);
the final form reads a raw little-endian u32 reinterpreted as i32 and, like
decode_unsigned, advances the offset by one byte only. -/
def decodeSigned (data : Bytes) (offset : Nat) : Except AotErr (Int × Nat) :=
  if data.length ≤ offset then .error .badImage
  else
    match data.get? offset with
    | none => .error .badImage
    | some val =>
      if val &&& 1 = 0 then .ok (Int.fdiv (toI8 val) 2, offset + 1)
      else if val &&& 2 = 0 then
        if offset + 1 > data.length then .error .badImage
        else
          match data.get? (offset + 1) with
          | none => .error .badImage
          | some b1 => .ok (Int.ofNat ((val >>> 2) ||| (b1 <<< 6)), offset + 2)
      else if val &&& 4 = 0 then
        if data.length ≤ offset + 2 then .error .badImage
        else
          match data.get? (offset + 1), data.get? (offset + 2) with
          | some b1, some b2 =>
              .ok (Int.ofNat ((val >>> 3) ||| (b1 <<< 5) ||| (b2 <<< 13)), offset + 3)
          | _, _ => .error .badImage
      else if val &&& 8 = 0 then
        if data.length ≤ offset + 3 then .error .badImage
        else
          match data.get? (offset + 1), data.get? (offset + 2), data.get? (offset + 3) with
          | some b1, some b2, some b3 =>
              .ok (Int.ofNat ((val >>> 4) ||| (b1 <<< 4) ||| (b2 <<< 12) ||| (b3 <<< 20)),
                offset + 4)
          | _, _, _ => .error .badImage
      else if val &&& 16 = 0 then
        match readU32 data (offset + 1) with
        | .ok v => .ok (toI32 v, offset + 1)
        | .error e => .error e
      else .error .badImage

/-- NativeReader::skip_integer (reader.rs lines 222-242): advance over one
encoded integer by marker inspection alone. -/
def skipInteger (data : Bytes) (offset : Nat) : Except AotErr Nat :=
  match data.get? offset with
  | none => .error .badImage
  | some val =>
    if val &&& 1 = 0 then .ok (offset + 1)
    else if val &&& 2 = 0 then .ok (offset + 2)
    else if val &&& 4 = 0 then .ok (offset + 3)
    else if val &&& 8 = 0 then .ok (offset + 4)
    else if val &&& 16 = 0 then .ok (offset + 5)
    else if val &&& 32 = 0 then .ok (offset + 9)
    else .error .badImage

/-- NativeReader::get_unsigned_encoding_size (reader.rs lines 244-252). -/
def getUnsignedEncodingSize (value : Nat) : Nat :=
  if value < 128 then 1
  else if value < 128 * 128 then 2
  else if value < 128 * 128 * 128 then 3
  else if value < 128 * 128 * 128 * 128 then 4
  else 5

/-- Outcome of decode_string: a decoded byte string together with the
offset after the length prefix (the source does not advance past the
content bytes), a recoverable error, or a Rust panic raised by the final
slice-indexing expression. -/
inductive StrResult where
  | ok (s : Bytes) (offset : Nat)
  | err (e : AotErr)
  | panicked
deriving DecidableEq, Repr

/-- NativeReader::decode_string (reader.rs lines 204-220).  The length
prefix is decoded; a zero length yields the empty string.  The source then
computes end_offset with wrapping usize addition, rejects a wrapped sum or
a start offset beyond the data length, and finally indexes
data[offset..offset+length]; that indexing panics whenever
offset+length exceeds the data length, which the preceding check does not
rule out. -/
def decodeString (data : Bytes) (offset : Nat) : StrResult :=
  match decodeUnsigned data offset with
  | .error e => .err e
  | .ok (length, off1) =>
    if length = 0 then .ok [] off1
    else
      let endOffset := (off1 + length) % 2 ^ 64
      if endOffset < length ∨ off1 > data.length then .err .badImage
      else if off1 + length ≤ data.length then .ok ((data.drop off1).take length) off1
      else .panicked

/-- NativeParser::get_relative_offset (parser.rs lines 32-37): the position
of the encoded delta plus the decoded signed delta, computed with u32
wrap-around as in the source (pos as u32 + delta as u32). -/
def relTarget (pos : Nat) (delta : Int) : Nat :=
  (pos % 2 ^ 32 + (delta % (2 ^ 32 : Int)).toNat) % 2 ^ 32

/-- NativeHashtable (hashtable.rs): the state remembered after consuming
the one-byte header. -/
structure NativeHashtable where
  baseOffset : Nat
  bucketMask : Nat
  entryIndexSize : Nat
deriving DecidableEq, Repr

/-- NativeHashtable::new (hashtable.rs lines 15-35), over a parser whose
cursor stands at parserOff. -/
def hashtableNew (data : Bytes) (parserOff : Nat) : Except AotErr NativeHashtable :=
  match readU8 data parserOff with
  | .error e => .error e
  | .ok header =>
    let baseOffset := parserOff + 1
    let shift := header >>> 2
    if 31 < shift then .error .badImage
    else
      let entryIndexSize := header &&& 3
      if 2 < entryIndexSize then .error .badImage
      else .ok ⟨baseOffset, (1 <<< shift) - 1, entryIndexSize⟩

/-- NativeHashtable::get_parser_for_bucket (hashtable.rs lines 37-70):
returns the parser offset for the start of the bucket and the end offset
written through the out-parameter. -/
def getParserForBucket (data : Bytes) (ht : NativeHashtable) (bucket : Nat) :
    Except AotErr (Nat × Nat) :=
  let readPair : Except AotErr (Nat × Nat) :=
    if ht.entryIndexSize = 0 then
      let bucketOffset := ht.baseOffset + bucket
      match readU8 data bucketOffset, readU8 data (bucketOffset + 1) with
      | .ok s, .ok e => .ok (s, e)
      | .error e, _ => .error e
      | _, .error e => .error e
    else if ht.entryIndexSize = 1 then
      let bucketOffset := ht.baseOffset + 2 * bucket
      match readU16 data bucketOffset, readU16 data (bucketOffset + 2) with
      | .ok s, .ok e => .ok (s, e)
      | .error e, _ => .error e
      | _, .error e => .error e
    else
      let bucketOffset := ht.baseOffset + 4 * bucket
      match readU32 data bucketOffset, readU32 data (bucketOffset + 4) with
      | .ok s, .ok e => .ok (s, e)
      | .error e, _ => .error e
      | _, .error e => .error e
  match readPair with
  | .error e => .error e
  | .ok (s, e) => .ok (ht.baseOffset + s, ht.baseOffset + e)

/-- NativeHashtable::lookup (hashtable.rs lines 72-78): computes the bucket
from the hashcode and returns the iterator state (start parser offset, end
offset, low hash byte).  The hashcode argument is the 32-bit value. -/
def lookup (data : Bytes) (ht : NativeHashtable) (hashcode : Nat) :
    Except AotErr (Nat × Nat × Nat) :=
  match getParserForBucket data ht ((hashcode >>> 8) &&& ht.bucketMask) with
  | .error e => .error e
  | .ok (start, endOff) => .ok (start, endOff, hashcode % 256)

/-- NativeHashtableIterator::next (hashtable.rs lines 101-122) run to
exhaustion: collects the parser offsets of every yielded sub-parser.  The
fuel argument bounds the number of loop iterations; the cursor strictly
advances every iteration, so a fuel of endOff - off + 1 is always enough
(see the fuel-irrelevance lemma below). -/
def iterFuel (data : Bytes) (tgt endOff : Nat) : Nat → Nat → List Nat
  | 0, _ => []
  | fuel + 1, off =>
    if off < endOff then
      match data.get? off with
      | none => []
      | some b =>
        if b = tgt then
          match decodeSigned data (off + 1) with
          | .error _ => []
          | .ok (d, off2) => relTarget (off + 1) d :: iterFuel data tgt endOff fuel off2
        else if tgt < b then []
        else
          match skipInteger data (off + 1) with
          | .error _ => []
          | .ok off2 => iterFuel data tgt endOff fuel off2
    else []

/-- Iterator run to exhaustion with sufficient fuel (the cursor strictly
advances each iteration, so endOff - off + 1 iterations always suffice). -/
def iterRunAll (data : Bytes) (tgt endOff off : Nat) : List Nat :=
  iterFuel data tgt endOff (endOff - off + 1) off

/-- Observation of a whole lookup: construct the table at offset 0, look up
the hashcode, and run the iterator to exhaustion. -/
def lookupRun (data : Bytes) (hashcode : Nat) : Except AotErr (List Nat) :=
  match hashtableNew data 0 with
  | .error e => .error e
  | .ok ht =>
    match lookup data ht hashcode with
    | .error e => .error e
    | .ok (start, endOff, tgt) => .ok (iterRunAll data tgt endOff start)

/-- One hashtable entry as laid out in a bucket: the stored low hash byte,
the byte length of the encoded relative offset, the decoded signed delta
and the resulting payload parser offset. -/
structure HEntry where
  low : Nat
  encLen : Nat
  delta : Int
  payload : Nat
deriving DecidableEq, Repr

/-- Layout predicate for a bucket region [off, endOff): the listed entries
are laid out contiguously, where the extent of each relative-offset field
is the one skip_integer computes (the codec's own notion of encoded
length), and decode_signed reads the recorded delta there.  The offset
decode_signed ends at is not constrained. -/
def entriesAtSkip (data : Bytes) : Nat → Nat → List HEntry → Bool
  | off, endOff, [] => off = endOff
  | off, endOff, e :: rest =>
    (data.get? off = some e.low : Bool) &&
    (skipInteger data (off + 1) = .ok (off + 1 + e.encLen) : Bool) &&
    (match decodeSigned data (off + 1) with
     | .ok (d, _) => d = e.delta
     | .error _ => false) &&
    (e.payload = relTarget (off + 1) e.delta : Bool) &&
    entriesAtSkip data (off + 1 + e.encLen) endOff rest

/-- Strengthened layout predicate: additionally, decode_signed consumes the
same bytes skip_integer does, i.e. each relative-offset field uses one of
the one- to four-byte varint forms. -/
def entriesAt (data : Bytes) : Nat → Nat → List HEntry → Bool
  | off, endOff, [] => off = endOff
  | off, endOff, e :: rest =>
    (data.get? off = some e.low : Bool) &&
    (skipInteger data (off + 1) = .ok (off + 1 + e.encLen) : Bool) &&
    (decodeSigned data (off + 1) = .ok (e.delta, off + 1 + e.encLen) : Bool) &&
    (e.payload = relTarget (off + 1) e.delta : Bool) &&
    entriesAt data (off + 1 + e.encLen) endOff rest

/-- Entries of a bucket sorted ascending by their stored low hash byte. -/
def sortedLow : List HEntry → Bool
  | [] => true
  | [_] => true
  | a :: b :: rest => (a.low ≤ b.low : Bool) && sortedLow (b :: rest)

/-- Number of bytes decode_unsigned and decode_signed advance the cursor
by, as a function of the marker byte (specification-side helper). -/
def decodeAdvance (b : Nat) : Nat :=
  if b &&& 1 = 0 then 1
  else if b &&& 2 = 0 then 2
  else if b &&& 4 = 0 then 3
  else if b &&& 8 = 0 then 4
  else 1

/-- PE section header, restricted to the fields the tool consumes (name,
VirtualAddress, VirtualSize, file range). -/
structure PeSection where
  name : String
  virtualAddress : Nat
  virtualSize : Nat
  fileStart : Nat
  fileEnd : Nat
deriving DecidableEq, Repr

/-- Model of the pelite PE abstraction (an external dependency with a
narrow interface): image bytes, section headers, and the address
translation maps va-to-rva, rva-to-va, rva-to-file-offset and
file-offset-to-rva, kept abstract as function fields. -/
structure Pe where
  image : Bytes
  sections : List PeSection
  rvaToVa : Nat → Option Nat
  vaToRva : Nat → Option Nat
  rvaToFileOffset : Nat → Option Nat
  fileOffsetToRva : Nat → Option Nat

/-- Section lookup by name (pelite section_headers().by_name). -/
def Pe.byName (pe : Pe) (n : String) : Option PeSection :=
  pe.sections.find? (fun s => s.name = n)

/-- Section lookup by RVA (pelite section_headers().by_rva): the first
section whose virtual range contains the RVA. -/
def Pe.byRva (pe : Pe) (rva : Nat) : Option PeSection :=
  pe.sections.find? (fun s => s.virtualAddress ≤ rva && rva < s.virtualAddress + s.virtualSize)

/-- View::bytes (native_format/mod.rs lines 32-37): translate the view VA
to a file offset and take the image tail from there. -/
def viewBytes (pe : Pe) (va : Nat) : Option Bytes :=
  match pe.vaToRva va with
  | none => none
  | some rva =>
    match pe.rvaToFileOffset rva with
    | none => none
    | some fo => some (pe.image.drop fo)

/-- A little-endian read of n bytes through a View at the given VA, as
performed by BinaryReader over View: the Read impl copies from the bytes
slice of the view and the reader errors when fewer than n bytes remain. -/
def readN (pe : Pe) (va n : Nat) : Option Nat :=
  match viewBytes pe va with
  | none => none
  | some s => if n ≤ s.length then some (leVal (s.take n)) else none

/-- List of consecutive u64 reads starting at a VA. -/
def readU64s (pe : Pe) (va : Nat) : Nat → Option (List Nat)
  | 0 => some []
  | n + 1 =>
    match readN pe va 8 with
    | none => none
    | some v =>
      match readU64s pe (va + 8) n with
      | none => none
      | some rest => some (v :: rest)

/-- ElementType (mt.rs lines 94-129). -/
inductive ElementType where
  | unknownET
  | voidET
  | boolean
  | char
  | sbyte
  | byte
  | int16
  | uint16
  | int32
  | uint32
  | int64
  | uint64
  | intPtr
  | uintPtr
  | single
  | double
  | valueType
  | nullable
  | classET
  | interface
  | systemArray
  | array
  | szArray
  | byRef
  | pointer
  | functionPointer
deriving DecidableEq, Repr

/-- ElementType::try_from with unwrap_or(Unknown) as used by
MethodTable::parse (mt.rs lines 63-65). -/
def ElementType.fromNat (n : Nat) : ElementType :=
  if n = 0x00 then .unknownET
  else if n = 0x01 then .voidET
  else if n = 0x02 then .boolean
  else if n = 0x03 then .char
  else if n = 0x04 then .sbyte
  else if n = 0x05 then .byte
  else if n = 0x06 then .int16
  else if n = 0x07 then .uint16
  else if n = 0x08 then .int32
  else if n = 0x09 then .uint32
  else if n = 0x0A then .int64
  else if n = 0x0B then .uint64
  else if n = 0x0C then .intPtr
  else if n = 0x0D then .uintPtr
  else if n = 0x0E then .single
  else if n = 0x0F then .double
  else if n = 0x10 then .valueType
  else if n = 0x12 then .nullable
  else if n = 0x14 then .classET
  else if n = 0x15 then .interface
  else if n = 0x16 then .systemArray
  else if n = 0x17 then .array
  else if n = 0x18 then .szArray
  else if n = 0x19 then .byRef
  else if n = 0x1A then .pointer
  else if n = 0x1B then .functionPointer
  else .unknownET

/-- Reconstructed MethodTable (mt.rs lines 9-28).  The view is represented
by its VA; the Rc pointer to the related type and the shared interfaces
vector are represented by the VA of the related MT and the list of VAs of
the interface MTs (each such MT is stored in the known table at its VA at
the time it is pushed). -/
structure MT where
  va : Nat
  flags : Nat
  baseSize : Nat
  relatedTypeAddress : Nat
  hashcode : Nat
  elementType : ElementType
  vtableAddresses : List Nat
  ifaceAddresses : List Nat
  relatedType : Option Nat
  interfaces : List Nat
deriving DecidableEq, Repr

/-- MethodTable::parse (mt.rs lines 34-91): sequential little-endian reads
of the header fields, the vtable slots and the interface slots, followed by
the count and element-type sanity checks of the source.  The vtable-count
check of the source, (count as i16) < 0 or count >= 1000, is equivalent to
count >= 1000 for a u16 since 1000 < 0x8000. -/
def mtParse (pe : Pe) (va : Nat) : Option MT :=
  match readN pe va 4 with
  | none => none
  | some flags =>
  match readN pe (va + 4) 4 with
  | none => none
  | some baseSize =>
  match readN pe (va + 8) 8 with
  | none => none
  | some relatedType =>
  match readN pe (va + 16) 2 with
  | none => none
  | some vtableCount =>
  match readN pe (va + 18) 2 with
  | none => none
  | some ifaceCount =>
  match readN pe (va + 20) 4 with
  | none => none
  | some hashcode =>
  if 1000 ≤ vtableCount then none
  else if 1000 ≤ ifaceCount then none
  else
  match readU64s pe (va + 24) vtableCount with
  | none => none
  | some vtables =>
  match readU64s pe (va + 24 + 8 * vtableCount) ifaceCount with
  | none => none
  | some ifaces =>
  let elementType := ElementType.fromNat ((flags &&& 0x7C000000) >>> 26)
  if elementType = .interface then
    if baseSize ≠ 0 then none
    else if relatedType ≠ 0 then none
    else some ⟨va, flags, baseSize, relatedType, hashcode, elementType, vtables, ifaces, none, []⟩
  else if baseSize < 0x10 then none
  else some ⟨va, flags, baseSize, relatedType, hashcode, elementType, vtables, ifaces, none, []⟩

/-- CANDIDATE_DATA_SECTIONS (binary.rs line 31). -/
def sectionCandidates : List String := [".rdata", ".pdata", ".data"]

/-- Offsets visited by sect.file_range().step_by(8): fileStart, then
fileStart + 8 and so on while below fileEnd. -/
def fileRangeOffsets (s : PeSection) : List Nat :=
  List.range' s.fileStart ((s.fileEnd - s.fileStart + 7) / 8) 8

/-- An in-bounds raw u64 read from the image at a file offset
(u64::from_le_bytes over image[offset..offset+8]); the source panics when
the range is out of bounds, which the scanners surface as a panic outcome. -/
def imageU64 (pe : Pe) (off : Nat) : Option Nat :=
  if off + 8 ≤ pe.image.length then some (leVal ((pe.image.drop off).take 8)) else none

/-- An in-bounds raw u32 read from the image at a file offset. -/
def imageU32 (pe : Pe) (off : Nat) : Option Nat :=
  if off + 4 ≤ pe.image.length then some (leVal ((pe.image.drop off).take 4)) else none

/-- Error outcomes of the scanners in binary.rs: a Rust panic from an
out-of-bounds image index, a missing candidate section (pelite Bounds
error), and the two bail! messages. -/
inductive ScanErr where
  | panicked
  | missingSection
  | mtNotFound
  | noRtrHeader
deriving DecidableEq, Repr

/-- Acceptance predicate of find_object_mt (binary.rs lines 215-248): the
parsed candidate must be a Class of base size 0x18 with no related type,
exactly three vtable slots, no interfaces, and every vtable slot VA must
translate to an RVA inside a section named .text. -/
def acceptMT (pe : Pe) (mt : MT) : Bool :=
  (mt.elementType = ElementType.classET : Bool) &&
  (mt.baseSize = 0x18 : Bool) &&
  (mt.relatedTypeAddress = 0 : Bool) &&
  (mt.vtableAddresses.length = 3 : Bool) &&
  mt.ifaceAddresses.isEmpty &&
  mt.vtableAddresses.all (fun va =>
    match pe.vaToRva va with
    | none => false
    | some rva =>
      match pe.byRva rva with
      | none => false
      | some s => s.name = ".text")

/-- One candidate step of find_object_mt: parse at the VA and keep the MT
when it passes every check. -/
def tryObjectMt (pe : Pe) (va : Nat) : Option MT :=
  match mtParse pe va with
  | none => none
  | some mt => if acceptMT pe mt then some mt else none

/-- Inner scan loop of find_object_mt over the file offsets of one section
(binary.rs lines 205-251). -/
def scanSection (pe : Pe) : List Nat → Except ScanErr (Option MT)
  | [] => .ok none
  | off :: rest =>
    match imageU64 pe off with
    | none => .error .panicked
    | some va =>
      match tryObjectMt pe va with
      | some mt => .ok (some mt)
      | none => scanSection pe rest

/-- Outer loop of find_object_mt over the candidate section names
(binary.rs lines 256-262); a missing section aborts the whole search
because scan_section propagates the Bounds error. -/
def goSections (pe : Pe) : List String → Except ScanErr MT
  | [] => .error .mtNotFound
  | n :: rest =>
    match pe.byName n with
    | none => .error .missingSection
    | some s =>
      match scanSection pe (fileRangeOffsets s) with
      | .error e => .error e
      | .ok (some mt) => .ok mt
      | .ok none => goSections pe rest

/-- NativeAotBinary::find_object_mt (binary.rs lines 197-263). -/
def findObjectMt (pe : Pe) : Except ScanErr MT :=
  goSections pe sectionCandidates

/-- Specification-side rendering of the claim for find_object_mt: the first
candidate VA, scanning .rdata, .pdata, .data in order and stepping each
section's file range in 8-byte strides, whose parse succeeds and passes
every acceptance check. -/
def findObjectMtSpec (pe : Pe) : Option MT :=
  ((sectionCandidates.filterMap pe.byName).flatMap fileRangeOffsets).findSome?
    (fun off =>
      match imageU64 pe off with
      | none => none
      | some va => tryObjectMt pe va)

/-- Known method-table map of the scanner, modelled as an association list
keyed by VA (HashMap in the source; only lookup, insert and in-place update
are used, so the representation is observationally equivalent). -/
abbrev Tables := List (Nat × MT)

/-- HashMap::get: the binding of the first pair carrying the key. -/
def tfind : Tables → Nat → Option MT
  | [], _ => none
  | p :: rest, k => if p.1 = k then some p.2 else tfind rest k

/-- HashMap::insert or in-place update through get_mut / entry API:
replace the binding when the key is present, append it otherwise (keys are
unique by construction, so this models the hash map faithfully). -/
def tset : Tables → Nat → MT → Tables
  | [], k, v => [(k, v)]
  | p :: rest, k, v => if p.1 = k then (k, v) :: rest else p :: tset rest k v

/-- Interface resolution loop of scan_method_tables (binary.rs lines
161-182): walk the candidate's interface VAs; skip zero VAs; reuse an MT
already in the table, otherwise parse and insert one; collect the VA of
every MT pushed into the interfaces vector. -/
def ifaceFold (pe : Pe) : Tables → List Nat → List Nat → Tables × List Nat
  | tabs, acc, [] => (tabs, acc)
  | tabs, acc, vi :: rest =>
    if vi = 0 then ifaceFold pe tabs acc rest
    else
      match tfind tabs vi with
      | some _ => ifaceFold pe tabs (acc ++ [vi]) rest
      | none =>
        match mtParse pe vi with
        | none => ifaceFold pe tabs acc rest
        | some imt => ifaceFold pe (tset tabs vi imt) (acc ++ [vi]) rest

/-- Body of the crawl for one agenda pointer (binary.rs lines 118-187).
Returns the updated table and the pointers pushed onto the next-round
unmatched list (at most the pointer itself). -/
def processPtr (pe : Pe) (minRva maxRva : Nat) (tables : Tables) (ptr : Nat) :
    Tables × List Nat :=
  match pe.rvaToVa ptr with
  | none => (tables, [])
  | some va =>
    match readN pe (va + 8) 8 with
    | none => (tables, [])
    | some baseTypeVa =>
      match pe.vaToRva baseTypeVa with
      | none => (tables, [])
      | some rva =>
        if rva < minRva ∨ maxRva ≤ rva then (tables, [])
        else
          match tfind tables baseTypeVa with
          | none => (tables, [ptr])
          | some _ =>
            let entry? : Option (Tables × MT) :=
              match tfind tables va with
              | some mt0 => some (tables, mt0)
              | none =>
                match mtParse pe va with
                | none => none
                | some mt => some (tset tables va mt, mt)
            match entry? with
            | none => (tables, [])
            | some (tables0, mt) =>
              let mt1 := { mt with relatedType := some baseTypeVa }
              let tables1 := tset tables0 va mt1
              let folded := ifaceFold pe tables1 [] mt.ifaceAddresses
              let tables2 := folded.1
              let interfaces := folded.2
              let tables3 :=
                match tfind tables2 baseTypeVa with
                | some bmt =>
                  tset tables2 baseTypeVa
                    { bmt with interfaces := bmt.interfaces ++ interfaces }
                | none => tables2
              (tables3, [])

/-- One round of the fixed-point crawl over a snapshot agenda (binary.rs
lines 112-188): process every pointer, accumulating the rebuilt unmatched
list. -/
def crawlRound (pe : Pe) (minRva maxRva : Nat) (tables : Tables) (agenda : List Nat) :
    Tables × List Nat :=
  agenda.foldl
    (fun st ptr =>
      let next := processPtr pe minRva maxRva st.1 ptr
      (next.1, st.2 ++ next.2))
    (tables, [])

/-- The outer crawl loop (binary.rs lines 112-192) with explicit fuel: run
a round over the current unmatched list; stop and return the table when the
rebuilt list is not strictly shorter, otherwise continue.  A none result
means the fuel ran out, which the termination theorem rules out for fuel
greater than the agenda length. -/
def crawlLoop (pe : Pe) (minRva maxRva : Nat) :
    Nat → Tables → List Nat → Option Tables
  | 0, _, _ => none
  | fuel + 1, tables, unmatched =>
    let round := crawlRound pe minRva maxRva tables unmatched
    if unmatched.length ≤ round.2.length then some round.1
    else crawlLoop pe minRva maxRva fuel round.1 round.2

/-- ReflectionMapBlob (rtr.rs lines 86-135): the explicit discriminants of
the source, from TypeMap = 1 up to ProxyTypeMap = 41, plus the default
Unknown sentinel. -/
inductive ReflectionMapBlob where
  | typeMap
  | arrayMap
  | pointerTypeMap
  | functionPointerTypeMap
  | invokeMap
  | virtualInvokeMap
  | commonFixupsTable
  | fieldAccessMap
  | cctorContextMap
  | byRefTypeMap
  | embeddedMetadata
  | unboxingAndInstantiatingStubMap
  | structMarshallingStubMap
  | delegateMarshallingStubMap
  | genericVirtualMethodTable
  | interfaceGenericVirtualMethodTable
  | typeTemplateMap
  | genericMethodsTemplateMap
  | blobIdResourceIndex
  | blobIdResourceData
  | blobIdStackTraceEmbeddedMetadata
  | blobIdStackTraceMethodRvaToTokenMapping
  | blobIdStackTraceLineNumbers
  | blobIdStackTraceDocuments
  | nativeLayoutInfo
  | nativeReferences
  | genericsHashtable
  | nativeStatics
  | staticsInfoHashtable
  | genericMethodsHashtable
  | exactMethodInstantiationsHashtable
  | externalTypeMap
  | proxyTypeMap
  | unknownBlob
deriving DecidableEq, Repr

/-- The num_enum FromPrimitive conversion for ReflectionMapBlob: a value
matching a declared discriminant maps to its variant, every other value to
the default Unknown.  The discriminants are TypeMap = 1 through
ProxyTypeMap = 41 with the gaps of the source (5, 12, 14, 20, 23, 37, 38,
39 are absent); Unknown itself carries the implicit discriminant 42. -/
def ReflectionMapBlob.fromNat (n : Nat) : ReflectionMapBlob :=
  if n = 1 then .typeMap
  else if n = 2 then .arrayMap
  else if n = 3 then .pointerTypeMap
  else if n = 4 then .functionPointerTypeMap
  else if n = 6 then .invokeMap
  else if n = 7 then .virtualInvokeMap
  else if n = 8 then .commonFixupsTable
  else if n = 9 then .fieldAccessMap
  else if n = 10 then .cctorContextMap
  else if n = 11 then .byRefTypeMap
  else if n = 13 then .embeddedMetadata
  else if n = 15 then .unboxingAndInstantiatingStubMap
  else if n = 16 then .structMarshallingStubMap
  else if n = 17 then .delegateMarshallingStubMap
  else if n = 18 then .genericVirtualMethodTable
  else if n = 19 then .interfaceGenericVirtualMethodTable
  else if n = 21 then .typeTemplateMap
  else if n = 22 then .genericMethodsTemplateMap
  else if n = 24 then .blobIdResourceIndex
  else if n = 25 then .blobIdResourceData
  else if n = 26 then .blobIdStackTraceEmbeddedMetadata
  else if n = 27 then .blobIdStackTraceMethodRvaToTokenMapping
  else if n = 28 then .blobIdStackTraceLineNumbers
  else if n = 29 then .blobIdStackTraceDocuments
  else if n = 30 then .nativeLayoutInfo
  else if n = 31 then .nativeReferences
  else if n = 32 then .genericsHashtable
  else if n = 33 then .nativeStatics
  else if n = 34 then .staticsInfoHashtable
  else if n = 35 then .genericMethodsHashtable
  else if n = 36 then .exactMethodInstantiationsHashtable
  else if n = 40 then .externalTypeMap
  else if n = 41 then .proxyTypeMap
  else .unknownBlob

/-- ReadyToRunSectionType (rtr.rs lines 38-84). -/
inductive ReadyToRunSectionType where
  | compilerIdentifier
  | importSections
  | runtimeFunctions
  | methodDefEntryPoints
  | exceptionInfo
  | debugInfo
  | delayLoadMethodCallThunks
  | availableTypes
  | instanceMethodEntryPoints
  | inliningInfo
  | profileDataInfo
  | manifestMetadata
  | attributePresence
  | inliningInfo2
  | componentAssemblies
  | ownerCompositeExecutable
  | pgoInstrumentationData
  | manifestAssemblyMvids
  | crossModuleInlineInfo
  | hotColdMap
  | methodIsGenericMap
  | enclosingTypeMap
  | typeGenericInfoMap
  | stringTable
  | gcStaticRegion
  | threadStaticRegion
  | typeManagerIndirection
  | eagerCctor
  | frozenObjectRegion
  | dehydratedData
  | threadStaticOffsetRegion
  | importAddressTables
  | moduleInitializerList
  | reflectionMapBlob (blob : ReflectionMapBlob)
  | unknownSection (tag : Nat)
deriving DecidableEq, Repr

/-- ReadyToRunSectionType::from_u32 (rtr.rs lines 226-278). -/
def ReadyToRunSectionType.fromU32 (num : Nat) : ReadyToRunSectionType :=
  if num = 100 then .compilerIdentifier
  else if num = 101 then .importSections
  else if num = 102 then .runtimeFunctions
  else if num = 103 then .methodDefEntryPoints
  else if num = 104 then .exceptionInfo
  else if num = 105 then .debugInfo
  else if num = 106 then .delayLoadMethodCallThunks
  else if num = 108 then .availableTypes
  else if num = 109 then .instanceMethodEntryPoints
  else if num = 110 then .inliningInfo
  else if num = 111 then .profileDataInfo
  else if num = 112 then .manifestMetadata
  else if num = 113 then .attributePresence
  else if num = 114 then .inliningInfo2
  else if num = 115 then .componentAssemblies
  else if num = 116 then .ownerCompositeExecutable
  else if num = 117 then .pgoInstrumentationData
  else if num = 118 then .manifestAssemblyMvids
  else if num = 119 then .crossModuleInlineInfo
  else if num = 120 then .hotColdMap
  else if num = 121 then .methodIsGenericMap
  else if num = 122 then .enclosingTypeMap
  else if num = 123 then .typeGenericInfoMap
  else if num = 200 then .stringTable
  else if num = 201 then .gcStaticRegion
  else if num = 202 then .threadStaticRegion
  else if num = 204 then .typeManagerIndirection
  else if num = 205 then .eagerCctor
  else if num = 206 then .frozenObjectRegion
  else if num = 207 then .dehydratedData
  else if num = 208 then .threadStaticOffsetRegion
  else if num = 212 then .importAddressTables
  else if num = 213 then .moduleInitializerList
  else if 300 ≤ num ∧ num ≤ 399 then .reflectionMapBlob (ReflectionMapBlob.fromNat (num - 300))
  else .unknownSection num

/-- Indices at which the ReflectionMapBlob enumeration declares a variant
(specification-side list used by the amended claim about tags 300-399). -/
def definedBlobIndices : List Nat :=
  [1, 2, 3, 4, 6, 7, 8, 9, 10, 11, 13, 15, 16, 17, 18, 19, 21, 22, 24, 25,
   26, 27, 28, 29, 30, 31, 32, 33, 34, 35, 36, 40, 41]

/-- One parsed ReadyToRun section entry (rtr.rs lines 28-36), with the
start and end views represented by their VAs. -/
structure RtrSection where
  sectionType : ReadyToRunSectionType
  flags : Nat
  startVa : Nat
  endVa : Nat
deriving DecidableEq, Repr

/-- Parsed ReadyToRunHeader (rtr.rs lines 15-26). -/
structure RtrHeader where
  majorVersion : Nat
  minorVersion : Nat
  flags : Nat
  numberOfSections : Nat
  entrySize : Nat
  entryType : Nat
  sections : List RtrSection
deriving DecidableEq, Repr

/-- The RTR signature value 0x00525452 (rtr.rs line 287). -/
def rtrSignature : Nat := 0x00525452

/-- ReadyToRunSection::parse (rtr.rs lines 204-222) iterated n times from a
VA: each entry is type tag (u32), flags (u32), start VA (u64), end VA
(u64), 24 bytes in all. -/
def parseRtrSections (pe : Pe) (va : Nat) : Nat → Option (List RtrSection)
  | 0 => some []
  | n + 1 =>
    match readN pe va 4 with
    | none => none
    | some tag =>
    match readN pe (va + 4) 4 with
    | none => none
    | some flags =>
    match readN pe (va + 8) 8 with
    | none => none
    | some startVa =>
    match readN pe (va + 16) 8 with
    | none => none
    | some endVa =>
    match parseRtrSections pe (va + 24) n with
    | none => none
    | some rest =>
      some (⟨ReadyToRunSectionType.fromU32 tag, flags, startVa, endVa⟩ :: rest)

/-- ReadyToRunHeader::parse (rtr.rs lines 140-169): signature check, fixed
header fields, the sanity check of the source (which, for a u16 count,
rejects exactly the values at or above 0x8000 because the disjunction
(count as i16) >= 0 or count < 1000 holds for every smaller value), then
the section entries. -/
def rtrParse (pe : Pe) (va : Nat) : Option RtrHeader :=
  match readN pe va 4 with
  | none => none
  | some sig =>
  if sig ≠ rtrSignature then none
  else
  match readN pe (va + 4) 2 with
  | none => none
  | some majorVersion =>
  match readN pe (va + 6) 2 with
  | none => none
  | some minorVersion =>
  match readN pe (va + 8) 4 with
  | none => none
  | some flags =>
  match readN pe (va + 12) 2 with
  | none => none
  | some numberOfSections =>
  match readN pe (va + 14) 1 with
  | none => none
  | some entrySize =>
  match readN pe (va + 15) 1 with
  | none => none
  | some entryType =>
  if 0x8000 ≤ numberOfSections then none
  else
  match parseRtrSections pe (va + 16) numberOfSections with
  | none => none
  | some sections =>
    some ⟨majorVersion, minorVersion, flags, numberOfSections, entrySize, entryType, sections⟩

/-- Inner offset loop of NativeAotBinary::load_pe over one section
(binary.rs lines 48-66): read a u32 at each 8-byte stride of the file
range; on a signature match, translate the file offset to a VA and attempt
a full header parse; the first success wins. -/
def loadPeScan (pe : Pe) : List Nat → Except ScanErr (Option RtrHeader)
  | [] => .ok none
  | off :: rest =>
    match imageU32 pe off with
    | none => .error .panicked
    | some signature =>
      if signature = rtrSignature then
        match pe.fileOffsetToRva off with
        | none => loadPeScan pe rest
        | some rva =>
          match pe.rvaToVa rva with
          | none => loadPeScan pe rest
          | some va =>
            match rtrParse pe va with
            | some rtr => .ok (some rtr)
            | none => loadPeScan pe rest
      else loadPeScan pe rest

/-- Outer section loop of load_pe (binary.rs lines 43-67): a candidate
section that is absent is skipped (unlike find_object_mt). -/
def loadPeGo (pe : Pe) : List String → Except ScanErr RtrHeader
  | [] => .error .noRtrHeader
  | n :: rest =>
    match pe.byName n with
    | none => loadPeGo pe rest
    | some s =>
      match loadPeScan pe (fileRangeOffsets s) with
      | .error e => .error e
      | .ok (some rtr) => .ok rtr
      | .ok none => loadPeGo pe rest

/-- NativeAotBinary::load_pe (binary.rs lines 42-70). -/
def loadPe (pe : Pe) : Except ScanErr RtrHeader :=
  loadPeGo pe sectionCandidates

/-- Control flow of main (main.rs lines 53-71), modelled over the outcome
of the stages that precede load_pe (file read and PE parse, thin adapters
over std::fs and pelite) and over the selected subcommand body.  The
result is the process exit code together with the standard-error lines:
an error propagated with the question-mark operator out of main makes the
process exit with code 1, while a subcommand error is only printed and the
function returns Ok, exiting 0. -/
def mainRun (readFileResult : Except String Bytes) (parsePeResult : Bytes → Except String Pe)
    (runCommand : RtrHeader → Except String (List String)) : Nat × List String :=
  match readFileResult with
  | .error e => (1, ["Error: " ++ e])
  | .ok data =>
    match parsePeResult data with
    | .error e => (1, ["Error: " ++ e])
    | .ok pe =>
      match loadPe pe with
      | .error .panicked => (101, [])
      | .error _ => (1, ["Error: Unable to locate ReadyToRun header"])
      | .ok rtr =>
        match runCommand rtr with
        | .error why => (0, ["Error: " ++ why])
        | .ok out => (0, out)

/-- HandleType (handles.rs lines 72-141): the 7-bit metadata handle kinds
and the extra Invalid marker with discriminant 0xff. -/
inductive HandleType where
  | nullKind
  | arraySignature
  | byReferenceSignature
  | constantBooleanArray
  | constantBooleanValue
  | constantByteArray
  | constantByteValue
  | constantCharArray
  | constantCharValue
  | constantDoubleArray
  | constantDoubleValue
  | constantEnumArray
  | constantEnumValue
  | constantHandleArray
  | constantInt16Array
  | constantInt16Value
  | constantInt32Array
  | constantInt32Value
  | constantInt64Array
  | constantInt64Value
  | constantReferenceValue
  | constantSByteArray
  | constantSByteValue
  | constantSingleArray
  | constantSingleValue
  | constantStringArray
  | constantStringValue
  | constantUInt16Array
  | constantUInt16Value
  | constantUInt32Array
  | constantUInt32Value
  | constantUInt64Array
  | constantUInt64Value
  | customAttribute
  | event
  | field
  | fieldSignature
  | functionPointerSignature
  | genericParameter
  | memberReference
  | method
  | methodInstantiation
  | methodSemantics
  | methodSignature
  | methodTypeVariableSignature
  | modifiedType
  | namedArgument
  | namespaceDefinition
  | namespaceReference
  | parameter
  | pointerSignature
  | property
  | propertySignature
  | qualifiedField
  | qualifiedMethod
  | szArraySignature
  | scopeDefinition
  | scopeReference
  | typeDefinition
  | typeForwarder
  | typeInstantiationSignature
  | typeReference
  | typeSpecification
  | typeVariableSignature
  | invalid
deriving DecidableEq, Repr

/-- Discriminant of a HandleType (the repr(u8) values of the source). -/
def HandleType.toNat : HandleType → Nat
  | .nullKind => 0x0
  | .arraySignature => 0x1
  | .byReferenceSignature => 0x2
  | .constantBooleanArray => 0x3
  | .constantBooleanValue => 0x4
  | .constantByteArray => 0x5
  | .constantByteValue => 0x6
  | .constantCharArray => 0x7
  | .constantCharValue => 0x8
  | .constantDoubleArray => 0x9
  | .constantDoubleValue => 0xa
  | .constantEnumArray => 0xb
  | .constantEnumValue => 0xc
  | .constantHandleArray => 0xd
  | .constantInt16Array => 0xe
  | .constantInt16Value => 0xf
  | .constantInt32Array => 0x10
  | .constantInt32Value => 0x11
  | .constantInt64Array => 0x12
  | .constantInt64Value => 0x13
  | .constantReferenceValue => 0x14
  | .constantSByteArray => 0x15
  | .constantSByteValue => 0x16
  | .constantSingleArray => 0x17
  | .constantSingleValue => 0x18
  | .constantStringArray => 0x19
  | .constantStringValue => 0x1a
  | .constantUInt16Array => 0x1b
  | .constantUInt16Value => 0x1c
  | .constantUInt32Array => 0x1d
  | .constantUInt32Value => 0x1e
  | .constantUInt64Array => 0x1f
  | .constantUInt64Value => 0x20
  | .customAttribute => 0x21
  | .event => 0x22
  | .field => 0x23
  | .fieldSignature => 0x24
  | .functionPointerSignature => 0x25
  | .genericParameter => 0x26
  | .memberReference => 0x27
  | .method => 0x28
  | .methodInstantiation => 0x29
  | .methodSemantics => 0x2a
  | .methodSignature => 0x2b
  | .methodTypeVariableSignature => 0x2c
  | .modifiedType => 0x2d
  | .namedArgument => 0x2e
  | .namespaceDefinition => 0x2f
  | .namespaceReference => 0x30
  | .parameter => 0x31
  | .pointerSignature => 0x32
  | .property => 0x33
  | .propertySignature => 0x34
  | .qualifiedField => 0x35
  | .qualifiedMethod => 0x36
  | .szArraySignature => 0x37
  | .scopeDefinition => 0x38
  | .scopeReference => 0x39
  | .typeDefinition => 0x3a
  | .typeForwarder => 0x3b
  | .typeInstantiationSignature => 0x3c
  | .typeReference => 0x3d
  | .typeSpecification => 0x3e
  | .typeVariableSignature => 0x3f
  | .invalid => 0xff

/-- HandleType::try_from for a u8 (num_enum TryFromPrimitive): succeeds
exactly on the declared discriminants 0x00 to 0x3f and 0xff. -/
def HandleType.tryFromNat (n : Nat) : Option HandleType :=
  if n = 0x0 then some .nullKind
  else if n = 0x1 then some .arraySignature
  else if n = 0x2 then some .byReferenceSignature
  else if n = 0x3 then some .constantBooleanArray
  else if n = 0x4 then some .constantBooleanValue
  else if n = 0x5 then some .constantByteArray
  else if n = 0x6 then some .constantByteValue
  else if n = 0x7 then some .constantCharArray
  else if n = 0x8 then some .constantCharValue
  else if n = 0x9 then some .constantDoubleArray
  else if n = 0xa then some .constantDoubleValue
  else if n = 0xb then some .constantEnumArray
  else if n = 0xc then some .constantEnumValue
  else if n = 0xd then some .constantHandleArray
  else if n = 0xe then some .constantInt16Array
  else if n = 0xf then some .constantInt16Value
  else if n = 0x10 then some .constantInt32Array
  else if n = 0x11 then some .constantInt32Value
  else if n = 0x12 then some .constantInt64Array
  else if n = 0x13 then some .constantInt64Value
  else if n = 0x14 then some .constantReferenceValue
  else if n = 0x15 then some .constantSByteArray
  else if n = 0x16 then some .constantSByteValue
  else if n = 0x17 then some .constantSingleArray
  else if n = 0x18 then some .constantSingleValue
  else if n = 0x19 then some .constantStringArray
  else if n = 0x1a then some .constantStringValue
  else if n = 0x1b then some .constantUInt16Array
  else if n = 0x1c then some .constantUInt16Value
  else if n = 0x1d then some .constantUInt32Array
  else if n = 0x1e then some .constantUInt32Value
  else if n = 0x1f then some .constantUInt64Array
  else if n = 0x20 then some .constantUInt64Value
  else if n = 0x21 then some .customAttribute
  else if n = 0x22 then some .event
  else if n = 0x23 then some .field
  else if n = 0x24 then some .fieldSignature
  else if n = 0x25 then some .functionPointerSignature
  else if n = 0x26 then some .genericParameter
  else if n = 0x27 then some .memberReference
  else if n = 0x28 then some .method
  else if n = 0x29 then some .methodInstantiation
  else if n = 0x2a then some .methodSemantics
  else if n = 0x2b then some .methodSignature
  else if n = 0x2c then some .methodTypeVariableSignature
  else if n = 0x2d then some .modifiedType
  else if n = 0x2e then some .namedArgument
  else if n = 0x2f then some .namespaceDefinition
  else if n = 0x30 then some .namespaceReference
  else if n = 0x31 then some .parameter
  else if n = 0x32 then some .pointerSignature
  else if n = 0x33 then some .property
  else if n = 0x34 then some .propertySignature
  else if n = 0x35 then some .qualifiedField
  else if n = 0x36 then some .qualifiedMethod
  else if n = 0x37 then some .szArraySignature
  else if n = 0x38 then some .scopeDefinition
  else if n = 0x39 then some .scopeReference
  else if n = 0x3a then some .typeDefinition
  else if n = 0x3b then some .typeForwarder
  else if n = 0x3c then some .typeInstantiationSignature
  else if n = 0x3d then some .typeReference
  else if n = 0x3e then some .typeSpecification
  else if n = 0x3f then some .typeVariableSignature
  else if n = 0xff then some .invalid
  else none

/-- BaseHandle::from_value (handles.rs lines 158-169): the raw-handle
encoding with the kind in the low 7 bits and the offset in the upper 25
bits, repacked into the internal form kind shifted left 25 or-ed with the
offset. -/
def baseHandleFromValue (value : Nat) : Nat :=
  ((value &&& 0x7F) <<< 25) ||| (value >>> 7)

/-- BaseHandle::from_raw (handles.rs lines 181-183): the identity; the
argument is stored as the handle value unchanged. -/
def baseHandleFromRaw (value : Nat) : Nat := value

/-- Offset field of a handle value (handles.rs, offset()). -/
def handleOffsetOf (h : Nat) : Nat := h &&& 0x01FFFFFF

/-- Nil test of a handle value (handles.rs, is_nil()). -/
def handleIsNil (h : Nat) : Bool := h &&& 0x01FFFFFF = 0

/-- BaseHandle::handle_type (handles.rs lines 189-191): the kind bits of
the value interpreted through the HandleType enumeration. -/
def handleTypeOf (h : Nat) : Option HandleType :=
  HandleType.tryFromNat ((h >>> 25) % 256)

/-- Typed handle from_value of the define_handle macro (handles.rs lines
16-27) for the kind with the given discriminant: the kind bits of the
value must decode to the expected kind or to Null, and the result
normalizes the kind bits to the expected kind over the low 25 offset
bits. -/
def typedHandleFromValue (kind : HandleType) (value : Nat) : Except AotErr Nat :=
  match HandleType.tryFromNat ((value >>> 25) % 256) with
  | none => .error .invalidMetaHandle
  | some ht =>
    if ht ≠ kind ∧ ht ≠ .nullKind then .error .invalidMetaHandle
    else .ok ((value &&& 0x01FFFFFF) ||| (kind.toNat <<< 25))

/-- Whether a kind-bits value is accepted by the TypeDefinition typed
from_value: it must decode to a declared HandleType equal to TypeDefinition
or Null (specification-side helper). -/
def typeDefKindAccepted (k : Nat) : Bool :=
  match HandleType.tryFromNat k with
  | none => false
  | some ht => ht = HandleType.typeDefinition ∨ ht = HandleType.nullKind

/-- Conversion applied by dump_ida when naming a method table (main.rs
lines 364-366): the payload value is taken unchanged via
BaseHandle::from_raw and then kind-checked as a TypeDefinition handle. -/
def mtHandleConvert (handleRaw : Nat) : Except AotErr Nat :=
  typedHandleFromValue .typeDefinition (baseHandleFromRaw handleRaw)

/-- Conversion the claim describes: the payload value is first repacked via
the raw-handle encoding (kind from the low 7 bits, offset from the upper
25 bits) and then kind-checked as a TypeDefinition handle. -/
def mtHandleConvertClaim (handleRaw : Nat) : Except AotErr Nat :=
  typedHandleFromValue .typeDefinition (baseHandleFromValue handleRaw)

/-- Byte content of the literal suffix "_vtbl". -/
def vtblSuffix : Bytes := [95, 118, 116, 98, 108]

/-- Per-entry body of the TypeMap naming loop of dump_ida (main.rs lines
357-374), over an already decoded payload pair (fixup index, raw handle
value).  The fixups table and the metadata name renderer (to_data followed
by get_full_name_with_generics) are passed as functions; a none result
models the continue branches. -/
def mtEntryName (fixups : Nat → Option Nat) (typeDefName : Nat → Option Bytes)
    (mtVa index handleRaw : Nat) : Option Bytes :=
  match fixups index with
  | none => none
  | some va =>
    if va = mtVa then
      match mtHandleConvert handleRaw with
      | .error _ => none
      | .ok h =>
        match typeDefName h with
        | none => none
        | some nm => some (nm ++ vtblSuffix)
    else none

/-- Specification-side restatement of the entry naming step after the
correction: the raw payload value is used directly as the handle value, its
kind field being its top seven bits, accepted when those bits denote
TypeDefinition or Null and normalized to TypeDefinition over the low 25
offset bits; the emitted name is the rendered type name followed by
"_vtbl". -/
def mtEntryNameSpec (fixups : Nat → Option Nat) (typeDefName : Nat → Option Bytes)
    (mtVa index handleRaw : Nat) : Option Bytes :=
  match fixups index with
  | none => none
  | some va =>
    if va = mtVa then
      if (handleRaw >>> 25) % 256 = 0x3a ∨ (handleRaw >>> 25) % 256 = 0 then
        match typeDefName ((handleRaw &&& 0x01FFFFFF) ||| (0x3a <<< 25)) with
        | none => none
        | some nm => some (nm ++ vtblSuffix)
      else none
    else none

/-
Concrete instances used by the witnesses.
-/

/-- Minimal PE whose three candidate data sections exist with empty file
ranges (used to witness the find_object_mt theorem). -/
def emptySectionsPe : Pe where
  image := []
  sections :=
    [⟨".rdata", 0, 0, 0, 0⟩, ⟨".pdata", 0, 0, 0, 0⟩, ⟨".data", 0, 0, 0, 0⟩]
  rvaToVa := fun _ => none
  vaToRva := fun _ => none
  rvaToFileOffset := fun _ => none
  fileOffsetToRva := fun _ => none

/-- PE without any candidate data section: load_pe cannot locate a
ReadyToRun header in it. -/
def noRtrPe : Pe where
  image := []
  sections := []
  rvaToVa := fun _ => none
  vaToRva := fun _ => none
  rvaToFileOffset := fun _ => none
  fileOffsetToRva := fun _ => none

/-- PE whose .rdata section holds a minimal parseable ReadyToRun header at
file offset 0, with identity address translation. -/
def withRtrPe : Pe where
  image := [82, 84, 82, 0, 1, 0, 0, 0, 0, 0, 0, 0, 0, 0, 0, 0]
  sections := [⟨".rdata", 0, 16, 0, 8⟩]
  rvaToVa := fun r => some r
  vaToRva := fun v => some v
  rvaToFileOffset := fun r => some r
  fileOffsetToRva := fun o => some o

/-- The header parsed out of withRtrPe. -/
def witnessRtrHeader : RtrHeader := ⟨1, 0, 0, 0, 0, 0, []⟩

/-- PE carrying one parseable candidate MethodTable at VA 0 (flags encode
element type Class, base size 0x18, related type VA 100, no vtable slots,
no interfaces), with identity address translation (used to witness the
crawl bookkeeping theorem). -/
def crawlWitnessPe : Pe where
  image :=
    [0, 0, 0, 0x50, 0x18, 0, 0, 0, 100, 0, 0, 0, 0, 0, 0, 0, 0, 0, 0, 0, 0, 0, 0, 0]
  sections := []
  rvaToVa := fun r => some r
  vaToRva := fun v => some v
  rvaToFileOffset := fun r => some r
  fileOffsetToRva := fun o => some o

/-- The MethodTable parsed at VA 0 of crawlWitnessPe. -/
def crawlWitnessMt : MT :=
  ⟨0, 0x50000000, 0x18, 100, 0, .classET, [], [], none, []⟩

/-- A base MethodTable sitting in the known table at VA 100 for the crawl
witness. -/
def crawlWitnessBase : MT :=
  ⟨100, 0x50000000, 0x18, 0, 0, .classET, [], [], none, []⟩

/-- Repeated skip_integer, used when a record decoder advances over a
length-prefixed collection of encoded integers (collections.rs, the reader
impl of define_collection). -/
def skipIntegers (data : Bytes) : Nat → Nat → Except AotErr Nat
  | offset, 0 => .ok offset
  | offset, n + 1 =>
    match skipInteger data offset with
    | .error e => .error e
    | .ok off2 => skipIntegers data off2 n

/-- Decoding of a handle-collection field inside a record (collections.rs
reader impl): remember the start offset, decode the count, skip count
encoded integers, and return the start offset together with the offset of
the next sibling field. -/
def readCollectionField (data : Bytes) (offset : Nat) : Except AotErr (Nat × Nat) :=
  match decodeUnsigned data offset with
  | .error e => .error e
  | .ok (count, off1) =>
    match skipIntegers data off1 count with
    | .error e => .error e
    | .ok off2 => .ok (offset, off2)

/-- Decoding of a typed handle field inside a record (the NativeReadable
impl of define_handle, handles.rs lines 34-43): decode an unsigned value
and validate it through the typed from_value. -/
def readTypedHandleField (kind : HandleType) (data : Bytes) (offset : Nat) :
    Except AotErr (Nat × Nat) :=
  match decodeUnsigned data offset with
  | .error e => .error e
  | .ok (v, off1) =>
    match typedHandleFromValue kind v with
    | .error e => .error e
    | .ok h => .ok (h, off1)

/-- Decoding of an untyped BaseHandle field inside a record (handles.rs
lines 171-178): decode an unsigned value and repack it through
BaseHandle::from_value. -/
def readBaseHandleField (data : Bytes) (offset : Nat) : Except AotErr (Nat × Nat) :=
  match decodeUnsigned data offset with
  | .error e => .error e
  | .ok (v, off1) => .ok (baseHandleFromValue v, off1)

/-- NamespaceDefinition record view (embedded_meta/mod.rs lines 163-169):
parent handle, name handle, and the start offsets of the three handle
collections. -/
structure NsRecord where
  parentScopeOrNamespace : Nat
  name : Nat
  typeDefinitions : Nat
  typeForwarders : Nat
  namespaceDefinitions : Nat
deriving DecidableEq, Repr

/-- NamespaceDefinition::new via the impl_handle macro (embedded_meta/
mod.rs lines 48-64 applied to lines 163-169): decode the five fields in
order starting at the 25-bit offset of the handle. -/
def nsToData (data : Bytes) (h : Nat) : Except AotErr NsRecord :=
  match readBaseHandleField data (handleOffsetOf h) with
  | .error e => .error e
  | .ok (parent, o1) =>
  match readTypedHandleField .constantStringValue data o1 with
  | .error e => .error e
  | .ok (name, o2) =>
  match readCollectionField data o2 with
  | .error e => .error e
  | .ok (tyCol, o3) =>
  match readCollectionField data o3 with
  | .error e => .error e
  | .ok (fwCol, o4) =>
  match readCollectionField data o4 with
  | .error e => .error e
  | .ok (nsCol, _) => .ok ⟨parent, name, tyCol, fwCol, nsCol⟩

/-- ConstantStringValue::to_data followed by reading the value field: a
decode_string at the 25-bit offset of the handle (embedded_meta/mod.rs
lines 157-161 with the String NativeReadable of reader.rs). -/
def constantStringValue (data : Bytes) (h : Nat) : StrResult :=
  decodeString data (handleOffsetOf h)

/-- Outcome of TypeDefinition::get_full_name: the rendered byte string, a
propagated error, a panic from decode_string, or exhausted fuel standing
for a non-terminating namespace chain. -/
inductive NameResult where
  | ok (s : Bytes)
  | err (e : AotErr)
  | panicked
  | fuelOut
deriving DecidableEq, Repr

/-- Join a list of byte strings with a dot. -/
def joinDot : List Bytes → Bytes
  | [] => []
  | [s] => s
  | s :: rest => s ++ [46] ++ joinDot rest

/-- Outcome of the namespace-chain walk: the collected names
outermost-first, a propagated error, a panic, or exhausted fuel. -/
inductive WalkResult where
  | collected (names : List Bytes)
  | err (e : AotErr)
  | panicked
  | fuelOut
deriving DecidableEq, Repr

/-- Namespace-chain walk of TypeDefinition::get_full_name (utils.rs lines
100-115), with accumulated names kept outermost-first (the source pushes
innermost-first and reverses at the end).  Each step: stop when the handle
kind is no longer NamespaceDefinition; re-type the handle, decode the
namespace record, stop when its name handle is nil, otherwise render the
name and continue at the parent handle. -/
def nsChainWalk (data : Bytes) : Nat → Nat → List Bytes → WalkResult
  | 0, _, _ => .fuelOut
  | fuel + 1, h, acc =>
    if handleTypeOf h ≠ some .namespaceDefinition then .collected acc
    else
      match typedHandleFromValue .namespaceDefinition h with
      | .error e => .err e
      | .ok h2 =>
        match nsToData data h2 with
        | .error e => .err e
        | .ok ns =>
          if handleIsNil ns.name then .collected acc
          else
            match constantStringValue data ns.name with
            | .panicked => .panicked
            | .err e => .err e
            | .ok s _ => nsChainWalk data fuel ns.parentScopeOrNamespace (s :: acc)

/-- TypeDefinition::get_full_name (utils.rs lines 93-121), parameterized by
the name handle and the namespace handle of the type record (the two
fields the function consumes).  The final rendering joins the collected
namespace names with dots and always appends a dot before the type name. -/
def getFullName (data : Bytes) (nameHdl nsHdl : Nat) (fuel : Nat) : NameResult :=
  match constantStringValue data nameHdl with
  | .panicked => .panicked
  | .err e => .err e
  | .ok typeName _ =>
    match nsChainWalk data fuel nsHdl [] with
    | .err e => .err e
    | .panicked => .panicked
    | .fuelOut => .fuelOut
    | .collected names => .ok (joinDot names ++ [46] ++ typeName)

/-- Number of bytes skip_integer advances the cursor by, as a function of
the marker byte (specification-side helper). -/
def skipAdvance (b : Nat) : Nat :=
  if b &&& 1 = 0 then 1
  else if b &&& 2 = 0 then 2
  else if b &&& 4 = 0 then 3
  else if b &&& 8 = 0 then 4
  else if b &&& 16 = 0 then 5
  else 9

/-
Helper lemmas.
-/

theorem getUnsignedEncodingSize_le_one {v : Nat} (h : v < 2 ^ 7) :
    getUnsignedEncodingSize v ≤ 1 := by
  unfold getUnsignedEncodingSize
  split_ifs <;> omega

theorem getUnsignedEncodingSize_le_two {v : Nat} (h : v < 2 ^ 14) :
    getUnsignedEncodingSize v ≤ 2 := by
  unfold getUnsignedEncodingSize
  split_ifs <;> omega

theorem getUnsignedEncodingSize_le_three {v : Nat} (h : v < 2 ^ 21) :
    getUnsignedEncodingSize v ≤ 3 := by
  unfold getUnsignedEncodingSize
  split_ifs <;> omega

theorem getUnsignedEncodingSize_le_four {v : Nat} (h : v < 2 ^ 28) :
    getUnsignedEncodingSize v ≤ 4 := by
  unfold getUnsignedEncodingSize
  split_ifs <;> omega

theorem shiftLeft_lt_pow (b k m : Nat) (hb : b < 256) (hk : k + 8 ≤ m) :
    b <<< k < 2 ^ m := by
  rw [Nat.shiftLeft_eq]
  calc b * 2 ^ k < 256 * 2 ^ k :=
        Nat.mul_lt_mul_of_pos_right hb (Nat.pos_pow_of_pos k (by omega))
    _ = 2 ^ (k + 8) := by rw [Nat.pow_add]; ring
    _ ≤ 2 ^ m := Nat.pow_le_pow_right (by omega) hk

theorem shiftRight_lt_pow (b k m : Nat) (hb : b < 256) (h : 8 ≤ k + m) :
    b >>> k < 2 ^ m := by
  have h1 : b < 2 ^ (k + m) := by
    calc b < 256 := hb
      _ = 2 ^ 8 := by norm_num
      _ ≤ 2 ^ (k + m) := Nat.pow_le_pow_right (by norm_num) h
  rw [Nat.shiftRight_eq_div_pow]
  apply Nat.div_lt_of_lt_mul
  rw [← Nat.pow_add]
  exact h1

/-
Claim theorems.
-/

/-- CLAIM C1 (corrected).  For every successful decode_unsigned, the cursor
advance is a function of the marker byte alone: for the one- to four-byte
forms it coincides with the position skip_integer reaches and is at least
the claimed get_unsigned_encoding_size of the decoded value (with equality
exactly for canonical encodings); in the five-byte form, however, the
cursor advances by a single byte past the marker while skip_integer
advances five bytes, so the claimed equality with
get_unsigned_encoding_size fails there. -/
theorem decode_unsigned_advance_matches_marker
    (data : Bytes) (off v off1 : Nat)
    (hwf : ∀ b ∈ data, b < 256)
    (h : decodeUnsigned data off = .ok (v, off1)) :
    ∃ b, data.get? off = some b ∧
      skipInteger data off = .ok (off + skipAdvance b) ∧
      off1 = off + decodeAdvance b ∧
      (decodeAdvance b = skipAdvance b ∨ (decodeAdvance b = 1 ∧ skipAdvance b = 5)) ∧
      (decodeAdvance b = skipAdvance b → getUnsignedEncodingSize v ≤ decodeAdvance b) ∧
      (skipAdvance b = 5 → off1 = off + 1) := by
  unfold decodeUnsigned at h
  split at h
  · simp at h
  next hlen =>
    split at h
    · simp at h
    next val heq =>
      have hval : val < 256 := hwf val (List.get?_mem heq)
      refine ⟨val, heq, ?_⟩
      split at h
      -- form 1
      next h1 =>
        simp only [Except.ok.injEq, Prod.mk.injEq] at h
        obtain ⟨hv, hoff⟩ := h
        have hsa : skipAdvance val = 1 := by unfold skipAdvance; rw [if_pos h1]
        have hda : decodeAdvance val = 1 := by unfold decodeAdvance; rw [if_pos h1]
        have hskip : skipInteger data off = .ok (off + 1) := by
          simp only [skipInteger, heq]; rw [if_pos h1]
        have hb : v < 2 ^ 7 := by rw [← hv]; exact shiftRight_lt_pow val 1 7 hval (by norm_num)
        rw [hsa, hda, hskip]
        exact ⟨rfl, by omega, Or.inl rfl, fun _ => getUnsignedEncodingSize_le_one hb,
          fun _ => by omega⟩
      next h1 =>
        split at h
        -- form 2
        next h2 =>
          split at h
          · simp at h
          next hb1 =>
            split at h
            · simp at h
            next b1 heq1 =>
              simp only [Except.ok.injEq, Prod.mk.injEq] at h
              obtain ⟨hv, hoff⟩ := h
              have hsa : skipAdvance val = 2 := by
                unfold skipAdvance; rw [if_neg h1, if_pos h2]
              have hda : decodeAdvance val = 2 := by
                unfold decodeAdvance; rw [if_neg h1, if_pos h2]
              have hskip : skipInteger data off = .ok (off + 2) := by
                simp only [skipInteger, heq]; rw [if_neg h1, if_pos h2]
              have hbv : b1 < 256 := hwf b1 (List.get?_mem heq1)
              have hb : v < 2 ^ 14 := by
                rw [← hv]
                exact Nat.or_lt_two_pow (shiftRight_lt_pow val 2 14 hval (by norm_num))
                  (shiftLeft_lt_pow b1 6 14 hbv (by norm_num))
              rw [hsa, hda, hskip]
              exact ⟨rfl, by omega, Or.inl rfl, fun _ => getUnsignedEncodingSize_le_two hb,
                fun h5 => by omega⟩
        next h2 =>
          split at h
          -- form 3
          next h4 =>
            split at h
            · simp at h
            next hb2 =>
              split at h
              next b1 b2 heq1 heq2 =>
                simp only [Except.ok.injEq, Prod.mk.injEq] at h
                obtain ⟨hv, hoff⟩ := h
                have hsa : skipAdvance val = 3 := by
                  unfold skipAdvance; rw [if_neg h1, if_neg h2, if_pos h4]
                have hda : decodeAdvance val = 3 := by
                  unfold decodeAdvance; rw [if_neg h1, if_neg h2, if_pos h4]
                have hskip : skipInteger data off = .ok (off + 3) := by
                  simp only [skipInteger, heq]; rw [if_neg h1, if_neg h2, if_pos h4]
                have hbv1 : b1 < 256 := hwf b1 (List.get?_mem heq1)
                have hbv2 : b2 < 256 := hwf b2 (List.get?_mem heq2)
                have hb : v < 2 ^ 21 := by
                  rw [← hv]
                  exact Nat.or_lt_two_pow
                    (Nat.or_lt_two_pow (shiftRight_lt_pow val 3 21 hval (by norm_num))
                      (shiftLeft_lt_pow b1 5 21 hbv1 (by norm_num)))
                    (shiftLeft_lt_pow b2 13 21 hbv2 (by norm_num))
                rw [hsa, hda, hskip]
                exact ⟨rfl, by omega, Or.inl rfl,
                  fun _ => getUnsignedEncodingSize_le_three hb, fun h5 => by omega⟩
              next hcatch =>
                simp at h
          next h4 =>
            split at h
            -- form 4
            next h8 =>
              split at h
              · simp at h
              next hb3 =>
                split at h
                next b1 b2 b3 heq1 heq2 heq3 =>
                  simp only [Except.ok.injEq, Prod.mk.injEq] at h
                  obtain ⟨hv, hoff⟩ := h
                  have hsa : skipAdvance val = 4 := by
                    unfold skipAdvance; rw [if_neg h1, if_neg h2, if_neg h4, if_pos h8]
                  have hda : decodeAdvance val = 4 := by
                    unfold decodeAdvance; rw [if_neg h1, if_neg h2, if_neg h4, if_pos h8]
                  have hskip : skipInteger data off = .ok (off + 4) := by
                    simp only [skipInteger, heq]
                    rw [if_neg h1, if_neg h2, if_neg h4, if_pos h8]
                  have hbv1 : b1 < 256 := hwf b1 (List.get?_mem heq1)
                  have hbv2 : b2 < 256 := hwf b2 (List.get?_mem heq2)
                  have hbv3 : b3 < 256 := hwf b3 (List.get?_mem heq3)
                  have hb : v < 2 ^ 28 := by
                    rw [← hv]
                    exact Nat.or_lt_two_pow
                      (Nat.or_lt_two_pow
                        (Nat.or_lt_two_pow (shiftRight_lt_pow val 4 28 hval (by norm_num))
                          (shiftLeft_lt_pow b1 4 28 hbv1 (by norm_num)))
                        (shiftLeft_lt_pow b2 12 28 hbv2 (by norm_num)))
                      (shiftLeft_lt_pow b3 20 28 hbv3 (by norm_num))
                  rw [hsa, hda, hskip]
                  exact ⟨rfl, by omega, Or.inl rfl,
                    fun _ => getUnsignedEncodingSize_le_four hb, fun h5 => by omega⟩
                next hcatch =>
                  simp at h
            next h8 =>
              split at h
              -- form 5
              next h16 =>
                split at h
                next w hr =>
                  simp only [Except.ok.injEq, Prod.mk.injEq] at h
                  obtain ⟨hv, hoff⟩ := h
                  have hsa : skipAdvance val = 5 := by
                    unfold skipAdvance
                    rw [if_neg h1, if_neg h2, if_neg h4, if_neg h8, if_pos h16]
                  have hda : decodeAdvance val = 1 := by
                    unfold decodeAdvance; rw [if_neg h1, if_neg h2, if_neg h4, if_neg h8]
                  have hskip : skipInteger data off = .ok (off + 5) := by
                    simp only [skipInteger, heq]
                    rw [if_neg h1, if_neg h2, if_neg h4, if_neg h8, if_pos h16]
                  rw [hsa, hda, hskip]
                  exact ⟨rfl, by omega, Or.inr ⟨rfl, rfl⟩, fun hagree => by omega,
                    fun _ => by omega⟩
                next e hr =>
                  simp at h
              next h16 =>
                simp at h

/-- CLAIM C1 witness: the amended theorem applied to the one-byte encoding
of the value 1. -/
theorem decode_unsigned_advance_matches_marker_witness :
    ∃ b, ([2] : Bytes).get? 0 = some b ∧
      skipInteger [2] 0 = .ok (0 + skipAdvance b) ∧
      1 = 0 + decodeAdvance b ∧
      (decodeAdvance b = skipAdvance b ∨ (decodeAdvance b = 1 ∧ skipAdvance b = 5)) ∧
      (decodeAdvance b = skipAdvance b → getUnsignedEncodingSize 1 ≤ decodeAdvance b) ∧
      (skipAdvance b = 5 → 1 = 0 + 1) :=
  decode_unsigned_advance_matches_marker [2] 0 1 1 (by decide) (by decide)

/-- CLAIM C1 counterexample: on the five-byte encoding of 2^28 the decode
succeeds with the cursor advanced by one byte, while
get_unsigned_encoding_size of the decoded value is five (the position
skip_integer reaches), refuting the claimed advance at this input. -/
theorem decode_unsigned_advance_counterexample :
    decodeUnsigned [15, 0, 0, 0, 16, 0] 0 = .ok (268435456, 0 + 1) ∧
    getUnsignedEncodingSize 268435456 = 5 ∧
    skipInteger [15, 0, 0, 0, 16, 0] 0 = .ok (0 + 5) ∧
    0 + 1 ≠ 0 + getUnsignedEncodingSize 268435456 := by
  refine ⟨by decide, by decide, by decide, by decide⟩

/-- CLAIM C3 (code_bug).  On the truncated input consisting of the single
byte 0x02 (a length prefix announcing one content byte, with no content
following), decode_string reaches the slice indexing with an out-of-bounds
range and panics instead of returning the bad-image error the claim
requires: the bounds check of the source compares the start offset rather
than the end offset against the data length. -/
theorem decode_string_truncated_panics :
    decodeString [2] 0 = .panicked ∧
    decodeUnsigned [2] 0 = .ok (1, 1) ∧
    decodeString [2] 0 ≠ .err .badImage := by
  refine ⟨by decide, by decide, by decide⟩

/-- CLAIM C7 counterexample: tag 300 decodes to the Unknown sentinel of the
blob enumeration, not to a defined non-Unknown blob kind; index 0 carries
no declared variant. -/
theorem tag300_unknown_counterexample :
    ReadyToRunSectionType.fromU32 300 = .reflectionMapBlob .unknownBlob ∧
    ReflectionMapBlob.fromNat 0 = .unknownBlob ∧
    (0 : Nat) ∉ definedBlobIndices := by
  refine ⟨by decide, by decide, by decide⟩

set_option maxHeartbeats 1000000 in
/-- CLAIM C7 (corrected).  Every tag between 300 and 399 decodes to
ReflectionMapBlob of the enumeration applied to tag - 300, and the
enumeration is defined (non-Unknown) exactly at the indices 1, 2, 3, 4, 6,
7, 8, 9, 10, 11, 13, 15, 16, 17, 18, 19, 21, 22, 24, 25, 26, 27, 28, 29,
30, 31, 32, 33, 34, 35, 36, 40, 41; in particular index 0 (tag 300) is not
among them and decodes to the Unknown sentinel. -/
theorem reflection_map_blob_indices :
    ∀ t, 300 ≤ t → t ≤ 399 →
      ReadyToRunSectionType.fromU32 t
          = .reflectionMapBlob (ReflectionMapBlob.fromNat (t - 300)) ∧
      (ReflectionMapBlob.fromNat (t - 300) ≠ .unknownBlob ↔ (t - 300) ∈ definedBlobIndices) := by
  intro t h1 h2
  constructor
  · unfold ReadyToRunSectionType.fromU32
    rw [if_neg (show ¬ t = 100 by omega)]
    rw [if_neg (show ¬ t = 101 by omega)]
    rw [if_neg (show ¬ t = 102 by omega)]
    rw [if_neg (show ¬ t = 103 by omega)]
    rw [if_neg (show ¬ t = 104 by omega)]
    rw [if_neg (show ¬ t = 105 by omega)]
    rw [if_neg (show ¬ t = 106 by omega)]
    rw [if_neg (show ¬ t = 108 by omega)]
    rw [if_neg (show ¬ t = 109 by omega)]
    rw [if_neg (show ¬ t = 110 by omega)]
    rw [if_neg (show ¬ t = 111 by omega)]
    rw [if_neg (show ¬ t = 112 by omega)]
    rw [if_neg (show ¬ t = 113 by omega)]
    rw [if_neg (show ¬ t = 114 by omega)]
    rw [if_neg (show ¬ t = 115 by omega)]
    rw [if_neg (show ¬ t = 116 by omega)]
    rw [if_neg (show ¬ t = 117 by omega)]
    rw [if_neg (show ¬ t = 118 by omega)]
    rw [if_neg (show ¬ t = 119 by omega)]
    rw [if_neg (show ¬ t = 120 by omega)]
    rw [if_neg (show ¬ t = 121 by omega)]
    rw [if_neg (show ¬ t = 122 by omega)]
    rw [if_neg (show ¬ t = 123 by omega)]
    rw [if_neg (show ¬ t = 200 by omega)]
    rw [if_neg (show ¬ t = 201 by omega)]
    rw [if_neg (show ¬ t = 202 by omega)]
    rw [if_neg (show ¬ t = 204 by omega)]
    rw [if_neg (show ¬ t = 205 by omega)]
    rw [if_neg (show ¬ t = 206 by omega)]
    rw [if_neg (show ¬ t = 207 by omega)]
    rw [if_neg (show ¬ t = 208 by omega)]
    rw [if_neg (show ¬ t = 212 by omega)]
    rw [if_neg (show ¬ t = 213 by omega)]
    rw [if_pos (show 300 ≤ t ∧ t ≤ 399 from ⟨h1, h2⟩)]
  · have aux : ∀ i ≤ 99,
        (ReflectionMapBlob.fromNat i ≠ .unknownBlob ↔ i ∈ definedBlobIndices) := by decide
    exact aux (t - 300) (by omega)

/-- CLAIM C7 witness: the amended theorem applied at tag 301, whose index 1
is the first defined blob kind. -/
theorem reflection_map_blob_indices_witness :
    ReadyToRunSectionType.fromU32 301
        = .reflectionMapBlob (ReflectionMapBlob.fromNat (301 - 300)) ∧
    (ReflectionMapBlob.fromNat (301 - 300) ≠ .unknownBlob ↔
      (301 - 300) ∈ definedBlobIndices) :=
  reflection_map_blob_indices 301 (by decide) (by decide)

/-- CLAIM C9 counterexample: at the payload value packed per the raw-handle
encoding (offset 5 in the upper 25 bits, TypeDefinition kind 0x3a in the
low 7 bits), the conversion dump_ida performs (BaseHandle::from_raw, the
identity) and the conversion the claim describes (the raw-handle repack)
produce different TypeDefinition handles: the code reads kind Null from
the top bits and keeps offset 698, the claim predicts offset 5. -/
theorem from_raw_conversion_counterexample :
    (5 <<< 7) ||| 0x3a = 698 ∧
    mtHandleConvert 698 = .ok 1946157754 ∧
    mtHandleConvertClaim 698 = .ok 1946157061 ∧
    handleOffsetOf 1946157754 = 698 ∧
    handleOffsetOf 1946157061 = 5 ∧
    mtHandleConvert 698 ≠ mtHandleConvertClaim 698 := by
  refine ⟨by decide, by decide, by decide, by decide, by decide, by decide⟩

/-- Bridge for the TypeDefinition typed conversion: from_value succeeds
exactly when the kind bits are accepted (TypeDefinition or Null), and the
result keeps the low 25 bits as the offset. -/
theorem typedHandleFromValue_typeDef (v : Nat) :
    typedHandleFromValue .typeDefinition v
      = if typeDefKindAccepted ((v >>> 25) % 256)
        then .ok ((v &&& 0x01FFFFFF) ||| (0x3a <<< 25))
        else .error .invalidMetaHandle := by
  unfold typedHandleFromValue typeDefKindAccepted
  cases htf : HandleType.tryFromNat ((v >>> 25) % 256) with
  | none => rfl
  | some ht =>
    dsimp only
    by_cases hc : ht = HandleType.typeDefinition ∨ ht = HandleType.nullKind
    · rw [if_neg (show ¬(ht ≠ HandleType.typeDefinition ∧ ht ≠ HandleType.nullKind) by tauto),
        if_pos (show (decide (ht = HandleType.typeDefinition ∨ ht = HandleType.nullKind)) = true
          by simp [hc])]
      rfl
    · rw [if_pos (show ht ≠ HandleType.typeDefinition ∧ ht ≠ HandleType.nullKind by tauto),
        if_neg (show ¬((decide (ht = HandleType.typeDefinition ∨ ht = HandleType.nullKind)) = true)
          by simpa using hc)]

set_option maxRecDepth 4096 in
/-- The kind-bits acceptance test holds exactly for the TypeDefinition
discriminant 0x3a and the Null discriminant 0. -/
theorem typeDefKindAccepted_iff :
    ∀ k, k < 256 → (typeDefKindAccepted k = true ↔ (k = 0x3a ∨ k = 0)) := by decide

/-- CLAIM C9 (corrected).  The per-entry naming step of dump_ida equals the
direct-interpretation specification: the payload value handle_raw is used
unchanged as the handle value (kind in its top seven bits, offset in its
low 25 bits, no raw-handle repacking), accepted when the kind bits denote
TypeDefinition or Null, and the emitted name is the type name rendered with
generics followed by the literal "_vtbl". -/
theorem mt_entry_name_direct_handle :
    ∀ (fixups : Nat → Option Nat) (typeDefName : Nat → Option Bytes)
      (mtVa index handleRaw : Nat),
      mtEntryName fixups typeDefName mtVa index handleRaw
        = mtEntryNameSpec fixups typeDefName mtVa index handleRaw := by
  intro fixups typeDefName mtVa index handleRaw
  unfold mtEntryName mtEntryNameSpec mtHandleConvert baseHandleFromRaw
  cases fixups index with
  | none => rfl
  | some va =>
    dsimp only
    by_cases hva : va = mtVa
    · rw [if_pos hva, if_pos hva, typedHandleFromValue_typeDef]
      have hlt : (handleRaw >>> 25) % 256 < 256 := Nat.mod_lt _ (by norm_num)
      by_cases hk : (handleRaw >>> 25) % 256 = 0x3a ∨ (handleRaw >>> 25) % 256 = 0
      · rw [if_pos ((typeDefKindAccepted_iff _ hlt).mpr hk), if_pos hk]
      · rw [if_neg (fun hacc => hk ((typeDefKindAccepted_iff _ hlt).mp hacc)), if_neg hk]
    · rw [if_neg hva, if_neg hva]

/-- CLAIM C10 (confirmed).  Whenever the namespace-chain walk of
get_full_name collects no name segment — the namespace handle kind is not
NamespaceDefinition at the first step, or the first namespace record
decodes with a nil name handle — the rendered full name is the type name
prefixed with a single leading dot: the joining dot is emitted even though
the namespace prefix is empty. -/
theorem get_full_name_leading_dot
    (data : Bytes) (nameHdl nsHdl fuel : Nat) (tn : Bytes) (o : Nat)
    (hname : constantStringValue data nameHdl = .ok tn o) :
    (handleTypeOf nsHdl ≠ some .namespaceDefinition →
      getFullName data nameHdl nsHdl (fuel + 1) = .ok (46 :: tn))
    ∧ (∀ h2 ns, handleTypeOf nsHdl = some .namespaceDefinition →
        typedHandleFromValue .namespaceDefinition nsHdl = .ok h2 →
        nsToData data h2 = .ok ns → handleIsNil ns.name = true →
        getFullName data nameHdl nsHdl (fuel + 1) = .ok (46 :: tn)) := by
  constructor
  · intro hkind
    unfold getFullName
    rw [hname]
    unfold nsChainWalk
    rw [if_pos hkind]
    rfl
  · intro h2 ns hkind htyped hdata hnil
    unfold getFullName
    rw [hname]
    unfold nsChainWalk
    rw [if_neg (by simp [hkind])]
    rw [htyped]
    dsimp only
    rw [hdata]
    dsimp only
    rw [if_pos hnil]
    rfl

/-- CLAIM C10 witness: the theorem applied to a type named "T" (byte 84)
whose namespace handle has kind Null, yielding the name ".T". -/
theorem get_full_name_leading_dot_witness :
    getFullName [2, 84, 0] (0x1a <<< 25) 0 1 = .ok (46 :: [84]) :=
  (get_full_name_leading_dot [2, 84, 0] (0x1a <<< 25) 0 0 [84] 1 (by decide)).1 (by decide)

theorem processPtr_snd_le (pe : Pe) (minR maxR : Nat) (tables : Tables) (ptr : Nat) :
    (processPtr pe minR maxR tables ptr).2.length ≤ 1 := by
  unfold processPtr
  repeat' split
  all_goals simp

theorem crawlRound_aux (pe : Pe) (minR maxR : Nat) :
    ∀ (agenda : List Nat) (t : Tables) (acc : List Nat),
    ((agenda.foldl
        (fun st ptr =>
          let next := processPtr pe minR maxR st.1 ptr
          (next.1, st.2 ++ next.2))
        (t, acc)).2).length ≤ acc.length + agenda.length := by
  intro agenda
  induction agenda with
  | nil => intro t acc; simp
  | cons p rest ih =>
    intro t acc
    rw [List.foldl_cons]
    have h := ih (processPtr pe minR maxR t p).1 (acc ++ (processPtr pe minR maxR t p).2)
    have h2 := processPtr_snd_le pe minR maxR t p
    simp only [List.length_append, List.length_cons] at h ⊢
    omega

theorem crawlRound_snd_le (pe : Pe) (minR maxR : Nat) (t : Tables) (agenda : List Nat) :
    (crawlRound pe minR maxR t agenda).2.length ≤ agenda.length := by
  unfold crawlRound
  simpa using crawlRound_aux pe minR maxR agenda t []

theorem crawlLoop_isSome (pe : Pe) (minR maxR : Nat) :
    ∀ (fuel : Nat) (t : Tables) (u : List Nat), u.length < fuel →
      (crawlLoop pe minR maxR fuel t u).isSome := by
  intro fuel
  induction fuel with
  | zero => intro t u h; exact absurd h (Nat.not_lt_zero _)
  | succ f ih =>
    intro t u h
    unfold crawlLoop
    dsimp only
    split
    · simp
    next hlt =>
      apply ih
      have hr := crawlRound_snd_le pe minR maxR t u
      omega

/-- CLAIM C4 (confirmed).  The fixed-point crawl of scan_method_tables
terminates: every round rebuilds an unmatched list no longer than its
snapshot agenda (each pointer contributes at most itself), the loop exits
as soon as the list is not strictly shorter, and therefore fuel equal to
the agenda length plus one always suffices — the loop never exhausts it. -/
theorem scan_method_tables_crawl_terminates (pe : Pe) (minRva maxRva : Nat)
    (tables : Tables) (agenda unmatched : List Nat) :
    (crawlRound pe minRva maxRva tables agenda).2.length ≤ agenda.length ∧
    (crawlLoop pe minRva maxRva (unmatched.length + 1) tables unmatched).isSome = true :=
  ⟨crawlRound_snd_le pe minRva maxRva tables agenda,
   crawlLoop_isSome pe minRva maxRva (unmatched.length + 1) tables unmatched (by omega)⟩

/-- CLAIM C8 (corrected).  The process exit code is zero exactly when the
file read, the PE parse and load_pe (the ReadyToRun header location) all
succeed: a subcommand failure after that point only prints a diagnostic to
standard error and still exits zero, but a missing ReadyToRun header makes
main propagate the error and exit non-zero, contrary to the claim. -/
theorem exit_code_zero_iff_load_succeeds :
    ∀ (rf : Except String Bytes) (pp : Bytes → Except String Pe)
      (rc : RtrHeader → Except String (List String)),
      ((mainRun rf pp rc).1 = 0 ↔
        ∃ d pe rtr, rf = .ok d ∧ pp d = .ok pe ∧ loadPe pe = .ok rtr)
      ∧ (∀ d pe rtr why, rf = .ok d → pp d = .ok pe → loadPe pe = .ok rtr →
          rc rtr = .error why → mainRun rf pp rc = (0, ["Error: " ++ why])) := by
  intro rf pp rc
  constructor
  · unfold mainRun
    cases rf with
    | error e => simp
    | ok d =>
      cases hpp : pp d with
      | error e => simp [hpp]
      | ok pe =>
        cases hload : loadPe pe with
        | error e =>
          cases e <;> simp [hpp, hload]
        | ok rtr =>
          cases hrc : rc rtr with
          | error why => simp [hpp, hload, hrc]
          | ok out => simp [hpp, hload, hrc]
  · intro d pe rtr why hrf hpp hload hrc
    subst hrf
    unfold mainRun
    dsimp only
    rw [hpp]
    dsimp only
    rw [hload]
    dsimp only
    rw [hrc]

/-- CLAIM C8 counterexample: on a valid PE without any candidate data
section, no ReadyToRun header is located, the error propagates out of main
through the question-mark operator, and the process exits with code 1, not
0 as the claim requires. -/
theorem missing_rtr_exit_code_counterexample :
    loadPe noRtrPe = .error .noRtrHeader ∧
    (mainRun (.ok []) (fun _ => .ok noRtrPe) (fun _ => .ok [])).1 = 1 ∧
    (1 : Nat) ≠ 0 := by
  refine ⟨rfl, rfl, by decide⟩

/-- CLAIM C8 witness: the amended theorem applied to a PE holding a
parseable ReadyToRun header and a failing subcommand — exit code 0 with
the diagnostic on standard error. -/
theorem exit_code_zero_iff_load_succeeds_witness :
    mainRun (.ok []) (fun _ => .ok withRtrPe) (fun _ => .error "boom")
      = (0, ["Error: " ++ "boom"]) := by
  have h := (exit_code_zero_iff_load_succeeds (.ok []) (fun _ => .ok withRtrPe)
      (fun _ => .error "boom")).2 [] withRtrPe witnessRtrHeader "boom" rfl rfl (by rfl) rfl
  exact h

theorem scanSection_spec (pe : Pe) :
    ∀ offs : List Nat, (∀ off ∈ offs, off + 8 ≤ pe.image.length) →
      scanSection pe offs
        = .ok (offs.findSome? (fun off =>
            match imageU64 pe off with
            | none => none
            | some va => tryObjectMt pe va)) := by
  intro offs
  induction offs with
  | nil => intro hb; rfl
  | cons off rest ih =>
    intro hb
    have hoff : off + 8 ≤ pe.image.length := hb off (List.mem_cons_self off rest)
    have him : imageU64 pe off = some (leVal ((pe.image.drop off).take 8)) := by
      unfold imageU64
      rw [if_pos hoff]
    unfold scanSection
    rw [List.findSome?_cons, him]
    dsimp only
    cases htc : tryObjectMt pe (leVal ((pe.image.drop off).take 8)) with
    | some mt => rfl
    | none =>
      dsimp only
      exact ih (fun o ho => hb o (List.mem_cons_of_mem off ho))

theorem goSections_spec (pe : Pe) :
    ∀ names : List String,
      (∀ n ∈ names, (pe.byName n).isSome) →
      (∀ s ∈ names.filterMap pe.byName, ∀ off ∈ fileRangeOffsets s,
        off + 8 ≤ pe.image.length) →
      goSections pe names
        = match ((names.filterMap pe.byName).flatMap fileRangeOffsets).findSome?
            (fun off =>
              match imageU64 pe off with
              | none => none
              | some va => tryObjectMt pe va) with
          | some mt => .ok mt
          | none => .error .mtNotFound := by
  intro names
  induction names with
  | nil => intro h1 h2; rfl
  | cons n rest ih =>
    intro h1 h2
    have hn : (pe.byName n).isSome := h1 n (List.mem_cons_self n rest)
    cases hgn : pe.byName n with
    | none => rw [hgn] at hn; simp at hn
    | some s =>
      unfold goSections
      rw [hgn]
      dsimp only
      have hfm : (n :: rest).filterMap pe.byName = s :: rest.filterMap pe.byName := by
        rw [List.filterMap_cons, hgn]
      rw [hfm] at h2
      have hsb : ∀ off ∈ fileRangeOffsets s, off + 8 ≤ pe.image.length :=
        h2 s (List.mem_cons_self _ _)
      rw [scanSection_spec pe (fileRangeOffsets s) hsb]
      rw [hfm, List.flatMap_cons, List.findSome?_append]
      cases hfs : (fileRangeOffsets s).findSome? (fun off =>
          match imageU64 pe off with
          | none => none
          | some va => tryObjectMt pe va) with
      | some mt => rfl
      | none =>
        dsimp only
        rw [Option.none_or]
        exact ih (fun m hm => h1 m (List.mem_cons_of_mem n hm))
          (fun t ht => h2 t (List.mem_cons_of_mem s ht))

/-- CLAIM C5 (confirmed).  Provided the three candidate sections .rdata,
.pdata, .data are present and their scanned file offsets are in bounds (an
out-of-bounds read would panic), find_object_mt returns exactly the first
candidate — in section order, 8-byte stride order, reading a u64 VA at
each step — whose MethodTable parse succeeds and which passes all the
checks: element type Class, base size 0x18, zero related-type VA, exactly
three vtable slots, zero interfaces, and every vtable slot VA translating
to an RVA inside a section named .text; when no candidate qualifies it
fails. -/
theorem find_object_mt_first_accepted (pe : Pe)
    (hnames : ∀ n ∈ sectionCandidates, (pe.byName n).isSome)
    (hbounds : ∀ s ∈ sectionCandidates.filterMap pe.byName,
      ∀ off ∈ fileRangeOffsets s, off + 8 ≤ pe.image.length) :
    findObjectMt pe
      = match findObjectMtSpec pe with
        | some mt => .ok mt
        | none => .error .mtNotFound := by
  unfold findObjectMt findObjectMtSpec
  exact goSections_spec pe sectionCandidates hnames hbounds

/-- CLAIM C5 witness: the theorem applied to a PE whose candidate sections
exist with empty file ranges, where both sides agree on failure. -/
theorem find_object_mt_first_accepted_witness :
    findObjectMt emptySectionsPe
      = match findObjectMtSpec emptySectionsPe with
        | some mt => .ok mt
        | none => .error .mtNotFound :=
  find_object_mt_first_accepted emptySectionsPe (by decide) (by decide)

theorem tfind_tset_self : ∀ (t : Tables) (k : Nat) (v : MT), tfind (tset t k v) k = some v := by
  intro t
  induction t with
  | nil => intro k v; simp [tset, tfind]
  | cons p rest ih =>
    intro k v
    by_cases h : p.1 = k
    · simp [tset, tfind, h]
    · simp only [tset, if_neg h, tfind, if_neg h]
      exact ih k v


theorem tfind_tset_ne : ∀ (t : Tables) (k j : Nat) (v : MT), j ≠ k →
    tfind (tset t k v) j = tfind t j := by
  intro t
  induction t with
  | nil =>
    intro k j v hne
    simp only [tset, tfind]
    rw [if_neg (fun hh => hne hh.symm)]
  | cons p rest ih =>
    intro k j v hne
    by_cases h : p.1 = k
    · have hpj : ¬ p.1 = j := by rw [h]; exact fun hh => hne hh.symm
      simp only [tset, if_pos h, tfind]
      rw [if_neg (fun hh : k = j => hne hh.symm), if_neg hpj]
    · simp only [tset, if_neg h, tfind]
      by_cases hpj : p.1 = j
      · rw [if_pos hpj, if_pos hpj]
      · rw [if_neg hpj, if_neg hpj]
        exact ih k j v hne

theorem ifaceFold_fst_preserves (pe : Pe) :
    ∀ (vas : List Nat) (tabs : Tables) (acc : List Nat) (k : Nat) (m : MT),
      tfind tabs k = some m → tfind (ifaceFold pe tabs acc vas).1 k = some m := by
  intro vas
  induction vas with
  | nil => intro tabs acc k m h; exact h
  | cons vi rest ih =>
    intro tabs acc k m h
    unfold ifaceFold
    by_cases h0 : vi = 0
    · rw [if_pos h0]; exact ih tabs acc k m h
    rw [if_neg h0]
    cases hfv : tfind tabs vi with
    | some _ => exact ih tabs (acc ++ [vi]) k m h
    | none =>
      cases hp : mtParse pe vi with
      | none => exact ih tabs acc k m h
      | some imt =>
        have hk : k ≠ vi := by
          intro he
          rw [he, hfv] at h
          cases h
        exact ih (tset tabs vi imt) (acc ++ [vi]) k m
          (by rw [tfind_tset_ne tabs vi k imt hk]; exact h)

theorem ifaceFold_snd_filter (pe : Pe) (base : Tables) :
    ∀ (vas : List Nat) (tabs : Tables) (acc : List Nat),
      (∀ j, (tfind base j).isSome → (tfind tabs j).isSome) →
      (∀ j, (tfind tabs j).isSome → ((tfind base j).isSome ∨ (mtParse pe j).isSome)) →
      (ifaceFold pe tabs acc vas).2
        = acc ++ vas.filter (fun vi =>
            decide (vi ≠ 0) && ((tfind base vi).isSome || (mtParse pe vi).isSome)) := by
  intro vas
  induction vas with
  | nil => intro tabs acc hmono hinv; simp [ifaceFold]
  | cons vi rest ih =>
    intro tabs acc hmono hinv
    unfold ifaceFold
    by_cases h0 : vi = 0
    · rw [if_pos h0]
      rw [ih tabs acc hmono hinv]
      have hc : (decide (vi ≠ 0) &&
          ((tfind base vi).isSome || (mtParse pe vi).isSome)) = false := by
        simp [h0]
      rw [List.filter_cons, hc]
      simp
    rw [if_neg h0]
    cases hfv : tfind tabs vi with
    | some m =>
      have hcond : (decide (vi ≠ 0) &&
          ((tfind base vi).isSome || (mtParse pe vi).isSome)) = true := by
        have := hinv vi (by rw [hfv]; rfl)
        simp only [Bool.and_eq_true, decide_eq_true_eq, Bool.or_eq_true]
        exact ⟨h0, by simpa using this⟩
      rw [ih tabs (acc ++ [vi]) hmono hinv, List.filter_cons, hcond]
      simp
    | none =>
      cases hp : mtParse pe vi with
      | none =>
        have hbn : ¬ (tfind base vi).isSome := by
          intro hb
          have := hmono vi hb
          rw [hfv] at this
          simp at this
        have hcond : (decide (vi ≠ 0) &&
            ((tfind base vi).isSome || (mtParse pe vi).isSome)) = false := by
          simp only [Bool.and_eq_false_iff, Bool.or_eq_false_iff]
          right
          constructor
          · simpa using hbn
          · rw [hp]; rfl
        rw [ih tabs acc hmono hinv, List.filter_cons, hcond]
        simp
      | some imt =>
        have hcond : (decide (vi ≠ 0) &&
            ((tfind base vi).isSome || (mtParse pe vi).isSome)) = true := by
          simp only [Bool.and_eq_true, decide_eq_true_eq, Bool.or_eq_true]
          exact ⟨h0, Or.inr (by rw [hp]; rfl)⟩
        have hmono2 : ∀ j, (tfind base j).isSome → (tfind (tset tabs vi imt) j).isSome := by
          intro j hj
          by_cases hji : j = vi
          · rw [hji, tfind_tset_self]; rfl
          · rw [tfind_tset_ne tabs vi j imt hji]; exact hmono j hj
        have hinv2 : ∀ j, (tfind (tset tabs vi imt) j).isSome →
            ((tfind base j).isSome ∨ (mtParse pe j).isSome) := by
          intro j hj
          by_cases hji : j = vi
          · right; rw [hji, hp]; rfl
          · rw [tfind_tset_ne tabs vi j imt hji] at hj; exact hinv j hj
        rw [ih (tset tabs vi imt) (acc ++ [vi]) hmono2 hinv2, List.filter_cons, hcond]
        simp

theorem mtParse_fresh (pe : Pe) (va : Nat) (mt : MT) (h : mtParse pe va = some mt) :
    mt.relatedType = none ∧ mt.interfaces = [] := by
  unfold mtParse at h
  dsimp only at h
  repeat' split at h
  all_goals first
    | (cases h; exact ⟨rfl, rfl⟩)
    | (cases h)

/-- CLAIM C6 (confirmed).  When the crawl meets a candidate whose baseType
VA is already known and which parses successfully as a fresh MethodTable,
the table afterwards holds: at the base VA, the base MT with its
interfaces list extended by exactly the interface VAs of the candidate
that are non-zero and parse (or are already known, the candidate itself
included); at the candidate VA, the freshly parsed MT with its
related_type linked to the base and its own interfaces list untouched —
empty, as every fresh parse creates it; and the candidate is not pushed to
the unmatched list. -/
theorem crawl_links_interfaces_to_base
    (pe : Pe) (minRva maxRva : Nat) (tables : Tables)
    (ptr va baseTypeVa rva : Nat) (b mt : MT)
    (hva : pe.rvaToVa ptr = some va)
    (hread : readN pe (va + 8) 8 = some baseTypeVa)
    (hrva : pe.vaToRva baseTypeVa = some rva)
    (hrange : ¬(rva < minRva ∨ maxRva ≤ rva))
    (hbase : tfind tables baseTypeVa = some b)
    (hnew : tfind tables va = none)
    (hparse : mtParse pe va = some mt) :
    ∃ ifs : List Nat,
      tfind (processPtr pe minRva maxRva tables ptr).1 baseTypeVa
          = some { b with interfaces := b.interfaces ++ ifs } ∧
      (∀ vi, vi ∈ ifs ↔ vi ∈ mt.ifaceAddresses ∧ vi ≠ 0 ∧
          (vi = va ∨ (tfind tables vi).isSome ∨ (mtParse pe vi).isSome)) ∧
      tfind (processPtr pe minRva maxRva tables ptr).1 va
          = some { mt with relatedType := some baseTypeVa } ∧
      mt.interfaces = [] ∧
      (processPtr pe minRva maxRva tables ptr).2 = [] := by
  have hne : va ≠ baseTypeVa := by
    intro he
    rw [he, hbase] at hnew
    cases hnew
  have hproc : processPtr pe minRva maxRva tables ptr =
      (let mt1 := { mt with relatedType := some baseTypeVa }
       let tables1 := tset (tset tables va mt) va mt1
       let folded := ifaceFold pe tables1 [] mt.ifaceAddresses
       let tables3 :=
         match tfind folded.1 baseTypeVa with
         | some bmt => tset folded.1 baseTypeVa
             { bmt with interfaces := bmt.interfaces ++ folded.2 }
         | none => folded.1
       (tables3, [])) := by
    unfold processPtr
    rw [hva]
    dsimp only
    rw [hread]
    dsimp only
    rw [hrva]
    dsimp only
    rw [if_neg hrange, hbase]
    dsimp only
    rw [hnew]
    dsimp only
    rw [hparse]
  set mt1 := { mt with relatedType := some baseTypeVa } with hmt1
  set tables1 := tset (tset tables va mt) va mt1 with htables1
  set folded := ifaceFold pe tables1 [] mt.ifaceAddresses with hfolded
  have h1va : tfind tables1 va = some mt1 := tfind_tset_self _ va mt1
  have h1ne : ∀ j, j ≠ va → tfind tables1 j = tfind tables j := by
    intro j hj
    rw [htables1, tfind_tset_ne _ va j mt1 hj, tfind_tset_ne tables va j mt hj]
  have h1base : tfind tables1 baseTypeVa = some b := by
    rw [h1ne baseTypeVa (fun hh => hne hh.symm)]
    exact hbase
  have hfbase : tfind folded.1 baseTypeVa = some b :=
    ifaceFold_fst_preserves pe mt.ifaceAddresses tables1 [] baseTypeVa b h1base
  have hfva : tfind folded.1 va = some mt1 :=
    ifaceFold_fst_preserves pe mt.ifaceAddresses tables1 [] va mt1 h1va
  have hsnd : folded.2 = mt.ifaceAddresses.filter (fun vi =>
      decide (vi ≠ 0) && ((tfind tables1 vi).isSome || (mtParse pe vi).isSome)) := by
    rw [hfolded]
    rw [ifaceFold_snd_filter pe tables1 mt.ifaceAddresses tables1 []
      (fun j hj => hj) (fun j hj => Or.inl hj)]
    simp
  refine ⟨folded.2, ?_, ?_, ?_, (mtParse_fresh pe va mt hparse).2, ?_⟩
  · rw [hproc]
    dsimp only
    rw [hfbase]
    exact tfind_tset_self _ baseTypeVa _
  · intro vi
    rw [hsnd, List.mem_filter]
    constructor
    · rintro ⟨hm, hc⟩
      simp only [Bool.and_eq_true, decide_eq_true_eq, Bool.or_eq_true] at hc
      refine ⟨hm, hc.1, ?_⟩
      rcases hc.2 with hc2 | hc2
      · by_cases hvi : vi = va
        · exact Or.inl hvi
        · right; left
          rw [h1ne vi hvi] at hc2
          exact hc2
      · exact Or.inr (Or.inr hc2)
    · rintro ⟨hm, h0, hd⟩
      refine ⟨hm, ?_⟩
      simp only [Bool.and_eq_true, decide_eq_true_eq, Bool.or_eq_true]
      refine ⟨h0, ?_⟩
      rcases hd with hd | hd | hd
      · left; rw [hd, h1va]; rfl
      · left
        by_cases hvi : vi = va
        · rw [hvi, h1va]; rfl
        · rw [h1ne vi hvi]; exact hd
      · exact Or.inr hd
  · rw [hproc]
    dsimp only
    rw [hfbase]
    rw [tfind_tset_ne _ baseTypeVa va _ hne]
    exact hfva
  · rw [hproc]

/-- CLAIM C6 witness: the theorem applied to a one-entry table holding a
base MT at VA 100 and an image carrying a parseable candidate at VA 0
whose baseType field points at 100. -/
theorem crawl_links_interfaces_to_base_witness :
    ∃ ifs : List Nat,
      tfind (processPtr crawlWitnessPe 0 200 [(100, crawlWitnessBase)] 0).1 100
          = some { crawlWitnessBase with
                    interfaces := crawlWitnessBase.interfaces ++ ifs } ∧
      (∀ vi, vi ∈ ifs ↔ vi ∈ crawlWitnessMt.ifaceAddresses ∧ vi ≠ 0 ∧
          (vi = 0 ∨ (tfind [(100, crawlWitnessBase)] vi).isSome ∨
            (mtParse crawlWitnessPe vi).isSome)) ∧
      tfind (processPtr crawlWitnessPe 0 200 [(100, crawlWitnessBase)] 0).1 0
          = some { crawlWitnessMt with relatedType := some 100 } ∧
      crawlWitnessMt.interfaces = [] ∧
      (processPtr crawlWitnessPe 0 200 [(100, crawlWitnessBase)] 0).2 = [] :=
  crawl_links_interfaces_to_base crawlWitnessPe 0 200 [(100, crawlWitnessBase)] 0 0 100 100
    crawlWitnessBase crawlWitnessMt rfl rfl rfl (by decide) rfl rfl rfl

theorem skipInteger_lt (data : Bytes) (off off2 : Nat)
    (h : skipInteger data off = .ok off2) : off < off2 := by
  unfold skipInteger at h
  repeat' split at h
  all_goals first
    | (cases h; omega)
    | (cases h)

theorem decodeSigned_lt (data : Bytes) (off : Nat) (d : Int) (off2 : Nat)
    (h : decodeSigned data off = .ok (d, off2)) : off < off2 := by
  unfold decodeSigned at h
  repeat' split at h
  all_goals first
    | (cases h; omega)
    | (cases h)

theorem iterFuel_stop (data : Bytes) (tgt endOff : Nat) (fuel off : Nat)
    (h : ¬ off < endOff) : iterFuel data tgt endOff fuel off = [] := by
  cases fuel with
  | zero => rfl
  | succ f =>
    unfold iterFuel
    rw [if_neg h]

theorem iterFuel_congr (data : Bytes) (tgt endOff : Nat) :
    ∀ (f f2 off : Nat), endOff - off ≤ f → endOff - off ≤ f2 →
      iterFuel data tgt endOff f off = iterFuel data tgt endOff f2 off := by
  intro f
  induction f with
  | zero =>
    intro f2 off h h2
    have hoff : ¬ off < endOff := by omega
    rw [iterFuel_stop data tgt endOff 0 off hoff, iterFuel_stop data tgt endOff f2 off hoff]
  | succ f ih =>
    intro f2 off h h2
    by_cases hoff : off < endOff
    · cases f2 with
      | zero => omega
      | succ f2 =>
        unfold iterFuel
        rw [if_pos hoff, if_pos hoff]
        cases hg : data.get? off with
        | none => rfl
        | some b =>
          dsimp only
          by_cases hb : b = tgt
          · rw [if_pos hb, if_pos hb]
            cases hd : decodeSigned data (off + 1) with
            | error e => rfl
            | ok p =>
              obtain ⟨d, off2⟩ := p
              dsimp only
              have hlt : off + 1 < off2 := decodeSigned_lt data (off + 1) d off2 hd
              rw [ih f2 off2 (by omega) (by omega)]
          · rw [if_neg hb, if_neg hb]
            by_cases htgt : tgt < b
            · rw [if_pos htgt, if_pos htgt]
            · rw [if_neg htgt, if_neg htgt]
              cases hs : skipInteger data (off + 1) with
              | error e => rfl
              | ok off2 =>
                dsimp only
                have hlt : off + 1 < off2 := skipInteger_lt data (off + 1) off2 hs
                exact ih f2 off2 (by omega) (by omega)
    · rw [iterFuel_stop data tgt endOff (f + 1) off hoff,
        iterFuel_stop data tgt endOff f2 off hoff]

theorem entriesAt_le (data : Bytes) (endOff : Nat) :
    ∀ (es : List HEntry) (off : Nat), entriesAt data off endOff es = true → off ≤ endOff := by
  intro es
  induction es with
  | nil =>
    intro off h
    simp only [entriesAt, decide_eq_true_eq] at h
    omega
  | cons e rest ih =>
    intro off h
    simp only [entriesAt, Bool.and_eq_true, decide_eq_true_eq] at h
    have := ih (off + 1 + e.encLen) h.2
    omega

theorem sortedLow_tail (e : HEntry) (rest : List HEntry)
    (h : sortedLow (e :: rest) = true) : sortedLow rest = true := by
  cases rest with
  | nil => rfl
  | cons f r =>
    simp only [sortedLow, Bool.and_eq_true] at h
    exact h.2

theorem sortedLow_head_le (e : HEntry) :
    ∀ rest : List HEntry, sortedLow (e :: rest) = true → ∀ x ∈ rest, e.low ≤ x.low := by
  intro rest
  induction rest generalizing e with
  | nil => intro _ x hx; cases hx
  | cons f r ih =>
    intro h x hx
    simp only [sortedLow, Bool.and_eq_true, decide_eq_true_eq] at h
    rcases List.mem_cons.mp hx with hx | hx
    · rw [hx]; exact h.1
    · have hf : sortedLow (f :: r) = true := by
        cases r with
        | nil => rfl
        | cons g r2 => exact h.2
      exact le_trans h.1 (ih f hf x hx)

theorem iterFuel_layout (data : Bytes) (tgt endOff : Nat) :
    ∀ (es : List HEntry) (off fuel : Nat),
      entriesAt data off endOff es = true → sortedLow es = true → endOff - off ≤ fuel →
      iterFuel data tgt endOff fuel off
        = (es.filter (fun e => e.low = tgt)).map (fun e => e.payload) := by
  intro es
  induction es with
  | nil =>
    intro off fuel hla _ _
    simp only [entriesAt, decide_eq_true_eq] at hla
    rw [iterFuel_stop data tgt endOff fuel off (by omega)]
    rfl
  | cons e rest ih =>
    intro off fuel hla hs hf
    simp only [entriesAt, Bool.and_eq_true, decide_eq_true_eq] at hla
    obtain ⟨⟨⟨⟨hget, hskip⟩, hdec⟩, hpay⟩, hrest⟩ := hla
    have hdec2 : decodeSigned data (off + 1) = .ok (e.delta, off + 1 + e.encLen) := hdec
    have hEnc : 1 ≤ e.encLen := by
      have := skipInteger_lt data (off + 1) (off + 1 + e.encLen) hskip
      omega
    have hmid : off + 1 + e.encLen ≤ endOff := entriesAt_le data endOff rest _ hrest
    have hoff : off < endOff := by omega
    cases fuel with
    | zero => omega
    | succ f =>
      unfold iterFuel
      rw [if_pos hoff, hget]
      dsimp only
      by_cases hb : e.low = tgt
      · rw [if_pos hb, hdec2]
        dsimp only
        rw [List.filter_cons]
        rw [if_pos (by simpa using hb)]
        rw [List.map_cons]
        rw [ih (off + 1 + e.encLen) f hrest (sortedLow_tail e rest hs) (by omega)]
        rw [hpay]
      · rw [if_neg hb]
        by_cases htgt : tgt < e.low
        · rw [if_pos htgt]
          have hnone : (rest.filter (fun x => x.low = tgt)) = [] := by
            rw [List.filter_eq_nil_iff]
            intro x hx
            have := sortedLow_head_le e rest hs x hx
            simp only [decide_eq_true_eq]
            omega
          rw [List.filter_cons, if_neg (by simpa using hb), hnone]
          rfl
        · rw [if_neg htgt, hskip]
          dsimp only
          rw [List.filter_cons, if_neg (by simpa using hb)]
          exact ih (off + 1 + e.encLen) f hrest (sortedLow_tail e rest hs) (by omega)

theorem iterFuel_prefix_stop (data : Bytes) (tgt endOff : Nat) :
    ∀ (es1 : List HEntry) (off mid fuel bLow : Nat),
      entriesAt data off mid es1 = true → (∀ e ∈ es1, e.low ≤ tgt) →
      mid < endOff → data.get? mid = some bLow → tgt < bLow → endOff - off ≤ fuel →
      iterFuel data tgt endOff fuel off
        = (es1.filter (fun e => e.low = tgt)).map (fun e => e.payload) := by
  intro es1
  induction es1 with
  | nil =>
    intro off mid fuel bLow hla _ hmid hget htgt hf
    simp only [entriesAt, decide_eq_true_eq] at hla
    subst hla
    cases fuel with
    | zero => omega
    | succ f =>
      unfold iterFuel
      rw [if_pos hmid, hget]
      dsimp only
      rw [if_neg (by omega), if_pos htgt]
      rfl
  | cons e rest ih =>
    intro off mid fuel bLow hla hle hmid hget htgt hf
    simp only [entriesAt, Bool.and_eq_true, decide_eq_true_eq] at hla
    obtain ⟨⟨⟨⟨hget0, hskip⟩, hdec⟩, hpay⟩, hrest⟩ := hla
    have hdec2 : decodeSigned data (off + 1) = .ok (e.delta, off + 1 + e.encLen) := hdec
    have hEnc : 1 ≤ e.encLen := by
      have := skipInteger_lt data (off + 1) (off + 1 + e.encLen) hskip
      omega
    have hm : off + 1 + e.encLen ≤ mid := entriesAt_le data mid rest _ hrest
    have hoff : off < endOff := by omega
    have hrle : ∀ x ∈ rest, x.low ≤ tgt := fun x hx => hle x (List.mem_cons_of_mem e hx)
    have hele : e.low ≤ tgt := hle e (List.mem_cons_self e rest)
    cases fuel with
    | zero => omega
    | succ f =>
      unfold iterFuel
      rw [if_pos hoff, hget0]
      dsimp only
      by_cases hb : e.low = tgt
      · rw [if_pos hb, hdec2]
        dsimp only
        rw [List.filter_cons, if_pos (by simpa using hb), List.map_cons,
          ih (off + 1 + e.encLen) mid f bLow hrest hrle hmid hget htgt (by omega), hpay]
      · rw [if_neg hb, if_neg (by omega), hskip]
        dsimp only
        rw [List.filter_cons, if_neg (by simpa using hb)]
        exact ih (off + 1 + e.encLen) mid f bLow hrest hrle hmid hget htgt (by omega)

/-- CLAIM C2 (corrected).  For a lookup whose bucket read yields the
iterator state (start, endOff, low byte), and for a bucket laid out as a
sorted entry list in which every relative-offset field uses one of the
one- to four-byte varint forms (decode_signed and skip_integer consume the
same bytes): the iterator yields, in file order, exactly the payload
parser offsets of the entries whose stored low byte equals the hashcode's
low byte (first conjunct); and the result is already determined by the
prefix of the bucket up to the first entry whose low byte exceeds the
target — no byte at or beyond that entry's offset field is consulted
(second conjunct, the sorted short-circuit). -/
theorem lookup_yields_matching_payloads
    (data : Bytes) (ht : NativeHashtable) (hashcode start endOff : Nat)
    (hlook : lookup data ht hashcode = .ok (start, endOff, hashcode % 256)) :
    (∀ es, entriesAt data start endOff es = true → sortedLow es = true →
        iterRunAll data (hashcode % 256) endOff start
          = (es.filter (fun e => e.low = hashcode % 256)).map (fun e => e.payload))
    ∧ (∀ es1 mid bLow, entriesAt data start mid es1 = true →
        (∀ e ∈ es1, e.low ≤ hashcode % 256) → mid < endOff →
        data.get? mid = some bLow → hashcode % 256 < bLow →
        iterRunAll data (hashcode % 256) endOff start
          = (es1.filter (fun e => e.low = hashcode % 256)).map (fun e => e.payload)) := by
  constructor
  · intro es hla hs
    exact iterFuel_layout data (hashcode % 256) endOff es start (endOff - start + 1)
      hla hs (by omega)
  · intro es1 mid bLow hla hle hmid hget htgt
    exact iterFuel_prefix_stop data (hashcode % 256) endOff es1 start mid
      (endOff - start + 1) bLow hla hle hmid hget htgt (by omega)

/-- CLAIM C2 witness: the theorem applied to a one-bucket table holding
three one-byte-offset entries with low bytes 0x41, 0x42, 0x43 and
hashcode 0x42 — exactly the middle payload is yielded. -/
theorem lookup_yields_matching_payloads_witness :
    iterRunAll [0, 2, 8, 0x41, 0, 0x42, 0, 0x43, 0] (0x42 % 256) 9 3
      = (([⟨0x41, 1, 0, 4⟩, ⟨0x42, 1, 0, 6⟩, ⟨0x43, 1, 0, 8⟩] : List HEntry).filter
          (fun e => e.low = 0x42 % 256)).map (fun e => e.payload) :=
  (lookup_yields_matching_payloads [0, 2, 8, 0x41, 0, 0x42, 0, 0x43, 0] ⟨1, 0, 0⟩ 0x42 3 9 (by decide)).1
    [⟨0x41, 1, 0, 4⟩, ⟨0x42, 1, 0, 6⟩, ⟨0x43, 1, 0, 8⟩] (by decide) (by decide)

/-- CLAIM C2 counterexample: a bucket whose single (and sorted) entry
stores the target low byte with its relative offset encoded in the
five-byte form.  Because decode_signed advances the cursor by one byte
only while the entry extends five bytes, the iterator re-reads the
payload bytes as further entries and yields a second, spurious sub-parser,
refuting the claimed exact yield at this input. -/
theorem lookup_five_byte_entry_counterexample :
    entriesAtSkip [0, 2, 8, 0x42, 0x0F, 0x42, 0x00, 0x43, 0x00, 0x00] 3 9
        [⟨0x42, 5, 0x430042, 0x430046⟩] = true ∧
    sortedLow [⟨0x42, 5, 0x430042, 0x430046⟩] = true ∧
    lookupRun [0, 2, 8, 0x42, 0x0F, 0x42, 0x00, 0x43, 0x00, 0x00] 0x42
        = .ok [0x430046, 6] ∧
    ([0x430046, 6] : List Nat)
      ≠ ([⟨0x42, 5, 0x430042, 0x430046⟩] : List HEntry).map (fun e => e.payload) := by
  refine ⟨by decide, by decide, by decide, by decide⟩

end Hytale
